import Mathlib

/-! # gaiad-exporter: the scrape cycle of `main.go`

A shallow embedding of the Prometheus collector defined in `main.go`
(`Exporter.Describe`, `Exporter.Collect`, `updateGaiadMetricsFromApi`,
`updateNetworkGaiadMetricsFromApi`) together with the parts of the Go standard
library the collector calls (`encoding/json` decoding into `map[string]any`,
`strconv.ParseFloat`, `time.Parse` with the RFC3339 layout, `time.Time.Sub`,
`time.Duration.Seconds`).

* float64 values are modelled by their IEEE-754 binary64 fields; every float
  operation is the exact rational result rounded to nearest, ties to even;
* instants are integer nanosecond counts since the Unix epoch;
* the effects of a run (requests issued, descriptors and samples sent on the
  channels) are threaded explicitly through a `State` record.
-/

namespace GaiadExporter

/-! ## float64 -/

/-- An IEEE-754 binary64 value given by its sign bit, its biased exponent
(`0 .. 2047`) and its 52-bit fraction. -/
structure F64 where
  sign : Bool
  expo : Nat
  frac : Nat
deriving DecidableEq, Repr

namespace F64

/-- Signed zero. -/
def zero (neg : Bool) : F64 := ⟨neg, 0, 0⟩

/-- Signed infinity (`math.Inf`). -/
def inf (neg : Bool) : F64 := ⟨neg, 2047, 0⟩

/-- The quiet NaN returned by `math.NaN()` (bits `0x7FF8000000000001`). -/
def nan : F64 := ⟨false, 2047, 2 ^ 51 + 1⟩

/-- Is the value finite (neither an infinity nor a NaN)? -/
def isFinite (x : F64) : Bool := decide (x.expo < 2047)

/-- The significand of a finite value as an integer: the fraction for
subnormals, the fraction with the implicit leading bit otherwise. -/
def mant (x : F64) : Nat := if x.expo = 0 then x.frac else 2 ^ 52 + x.frac

/-- The power of two the significand of a finite value is scaled by. -/
def scale (x : F64) : Int := (if x.expo = 0 then 1 else (x.expo : Int)) - 1075

/-- The sign of a value as the integer factor `1` or `-1`. -/
def sgn (x : F64) : Int := if x.sign then -1 else 1

/-- The rational number a finite value denotes; `none` for infinities and
NaNs. -/
def toRat (x : F64) : Option ℚ :=
  if 2047 ≤ x.expo then none
  else some ((x.sgn : ℚ) * (x.mant : ℚ) * (2 : ℚ) ^ x.scale)

/-- Position of the highest set bit: `ilog2Aux fuel n = ⌊log₂ n⌋` for
`0 < n` as soon as `n ≤ fuel`; `0` for `n = 0`. -/
def ilog2Aux : Nat → Nat → Nat
  | 0, _ => 0
  | fuel + 1, n => if n < 2 then 0 else ilog2Aux fuel (n / 2) + 1

/-- Floor of the binary logarithm, `0` at `0`. -/
def ilog2 (n : Nat) : Nat := ilog2Aux n n

/-- The binary exponent of the positive rational `num / den`: the `e` with
`2 ^ e ≤ num / den < 2 ^ (e + 1)`. -/
def binExp (num den : Nat) : Int :=
  (ilog2 num : Int) - (ilog2 den : Int)
    - (if num * 2 ^ ilog2 den < den * 2 ^ ilog2 num then 1 else 0)

/-- The integer nearest to `n / d`, ties to even. -/
def roundNearestEven (n d : Nat) : Nat :=
  let q := n / d
  let r := n % d
  if d < 2 * r ∨ (2 * r = d ∧ q % 2 = 1) then q + 1 else q

/-- Assemble the binary64 of magnitude `m * 2 ^ (k - 1074)` from the biased
exponent `k` of its binade (`0` for subnormals) and its significand
`m ≤ 2 ^ 53`; a significand that rounded up to `2 ^ 53` carries into the
exponent, and a biased exponent beyond the finite range gives the infinity. -/
def pack (neg : Bool) (k m : Nat) : F64 :=
  let bits := k * 2 ^ 52 + m
  if 2047 ≤ bits / 2 ^ 52 then inf neg else ⟨neg, bits / 2 ^ 52, bits % 2 ^ 52⟩

/-- Round the non-negative rational `num / den` to the nearest binary64 value,
ties to even, and attach the sign `neg`.  Magnitudes too large for a finite
binary64 give the infinity. -/
def roundRat (neg : Bool) (num den : Nat) : F64 :=
  if num = 0 ∨ den = 0 then zero neg else
  -- subnormals share the exponent of the smallest normal
  let ee : Int := max (binExp num den) (-1022)
  -- the significand: `num / den` in units of `2 ^ (ee - 52)`, rounded
  let m := roundNearestEven (num * 2 ^ (52 - ee).toNat) (den * 2 ^ (ee - 52).toNat)
  pack neg (ee + 1022).toNat m

/-- Conversion `float64(i)` of an integer. -/
def ofInt (i : Int) : F64 := roundRat (decide (i < 0)) i.natAbs 1

/-- Float division `x / y`: the exact quotient of the two denoted values,
rounded; the IEEE special cases for NaNs, infinities and zeros come first. -/
def div (x y : F64) : F64 :=
  let s := xor x.sign y.sign
  if x.expo = 2047 ∧ x.frac ≠ 0 then nan
  else if y.expo = 2047 ∧ y.frac ≠ 0 then nan
  else if x.expo = 2047 then (if y.expo = 2047 then nan else inf s)
  else if y.expo = 2047 then zero s
  else if y.mant = 0 then (if x.mant = 0 then nan else inf s)
  else if x.mant = 0 then zero s
  else
    let k := x.scale - y.scale
    roundRat s (x.mant * 2 ^ k.toNat) (y.mant * 2 ^ (-k).toNat)

/-- Float addition `x + y`: the exact sum of the two denoted values, rounded;
the IEEE special cases for NaNs, infinities and zeros come first. -/
def add (x y : F64) : F64 :=
  if x.expo = 2047 ∧ x.frac ≠ 0 then nan
  else if y.expo = 2047 ∧ y.frac ≠ 0 then nan
  else if x.expo = 2047 then (if y.expo = 2047 ∧ x.sign ≠ y.sign then nan else x)
  else if y.expo = 2047 then y
  else if y.mant = 0 then (if x.mant = 0 then zero (x.sign && y.sign) else x)
  else if x.mant = 0 then y
  else
    let s := min x.scale y.scale
    -- the exact sum is `t * 2 ^ s`
    let t : Int := x.sgn * (x.mant * 2 ^ (x.scale - s).toNat : Nat)
      + y.sgn * (y.mant * 2 ^ (y.scale - s).toNat : Nat)
    if t = 0 then zero false
    else roundRat (decide (t < 0)) (t.natAbs * 2 ^ s.toNat) (2 ^ (-s).toNat)

end F64

/-! ## `strconv.ParseFloat(s, 64)`

The literal grammar of `strconv` (`special`, `readFloat`, `underscoreOK`) over
the characters of the string; the value of an accepted literal is its exact
rational value rounded to nearest-even, which is the result `ParseFloat`
documents. -/

deriving instance DecidableEq for Except

/-- The two errors of `strconv.ParseFloat`: `ErrSyntax` and `ErrRange`. -/
inductive NumError where
  | badSyntax
  | outOfRange
deriving DecidableEq, Repr

/-- ASCII lower-casing of a letter, as `strconv` does before comparing. -/
def lowerChar (c : Char) : Char :=
  if 'A'.toNat ≤ c.toNat ∧ c.toNat ≤ 'Z'.toNat then Char.ofNat (c.toNat + 32) else c

/-- Go `special`, restricted to literals it consumes entirely: an optionally
signed `inf` / `infinity`, or an unsigned `nan`, in any letter case. -/
def special (s : List Char) : Option F64 :=
  match s with
  | [] => none
  | c :: cs =>
    if c = '+' ∨ c = '-' then
      let l := cs.map lowerChar
      if l = ['i', 'n', 'f'] ∨ l = ['i', 'n', 'f', 'i', 'n', 'i', 't', 'y']
      then some (F64.inf (decide (c = '-'))) else none
    else
      let l := s.map lowerChar
      if l = ['i', 'n', 'f'] ∨ l = ['i', 'n', 'f', 'i', 'n', 'i', 't', 'y']
      then some (F64.inf false)
      else if l = ['n', 'a', 'n'] then some F64.nan else none

/-- The value of a mantissa digit in the given base, `none` if the character
is no digit of that base. -/
def digitVal (hex : Bool) (c : Char) : Option Nat :=
  if '0'.toNat ≤ c.toNat ∧ c.toNat ≤ '9'.toNat then some (c.toNat - '0'.toNat)
  else if hex ∧ 'a'.toNat ≤ c.toNat ∧ c.toNat ≤ 'f'.toNat then some (c.toNat - 'a'.toNat + 10)
  else if hex ∧ 'A'.toNat ≤ c.toNat ∧ c.toNat ≤ 'F'.toNat then some (c.toNat - 'A'.toNat + 10)
  else none

/-- What the mantissa loop of `readFloat` has seen so far. -/
structure Mantissa where
  mant : Nat := 0
  fracDigits : Nat := 0
  sawdot : Bool := false
  sawdigits : Bool := false
  underscores : Bool := false
deriving DecidableEq, Repr

/-- The mantissa loop of `readFloat`: digits of the base, at most one point,
underscores skipped; stops at the first other character and returns the
unread rest. -/
def scanMant (hex : Bool) : List Char → Mantissa → Mantissa × List Char
  | [], st => (st, [])
  | c :: cs, st =>
    if c = '_' then scanMant hex cs { st with underscores := true }
    else if c = '.' then
      if st.sawdot then (st, c :: cs) else scanMant hex cs { st with sawdot := true }
    else
      match digitVal hex c with
      | some v =>
        scanMant hex cs { st with
          sawdigits := true
          mant := st.mant * (if hex then 16 else 10) + v
          fracDigits := if st.sawdot then st.fracDigits + 1 else st.fracDigits }
      | none => (st, c :: cs)

/-- The digit loop of the exponent in `readFloat`: decimal digits and
underscores; the accumulated exponent stops growing once it reaches `10000`.
Returns the exponent, whether an underscore was seen, and the unread rest. -/
def scanExp : List Char → Nat → Bool → Nat × Bool × List Char
  | [], e, u => (e, u, [])
  | c :: cs, e, u =>
    if c = '_' then scanExp cs e true
    else
      match digitVal false c with
      | some v => scanExp cs (if e < 10000 then e * 10 + v else e) u
      | none => (e, u, c :: cs)

/-- Go `underscoreOK`, after the optional sign: `saw` is the class of the
previous character (`0` digit or base prefix, `1` underscore, `2` other,
`3` start of the number). -/
def underscoreOKAux (hex : Bool) : List Char → Nat → Bool
  | [], saw => saw != 1
  | c :: cs, saw =>
    if (digitVal hex c).isSome then underscoreOKAux hex cs 0
    else if c = '_' then (if saw != 0 then false else underscoreOKAux hex cs 1)
    else if saw = 1 then false
    else underscoreOKAux hex cs 2

/-- Go `underscoreOK`: underscores may appear only between digits, or between
a base prefix and a digit. -/
def underscoreOK (s : List Char) : Bool :=
  let t := match s with
    | c :: cs => if c = '-' ∨ c = '+' then cs else s
    | [] => s
  match t with
  | '0' :: x :: cs =>
    if lowerChar x = 'b' ∨ lowerChar x = 'o' ∨ lowerChar x = 'x'
    then underscoreOKAux (lowerChar x = 'x') cs 0
    else underscoreOKAux false t 3
  | _ => underscoreOKAux false t 3

/-- A literal accepted by `readFloat`: it denotes
`± mant * base ^ (exp - fracDigits)` with base `10`, or
`± mant * 2 ^ (exp - 4 * fracDigits)` for a hexadecimal literal. -/
structure Literal where
  neg : Bool
  hex : Bool
  mant : Nat
  fracDigits : Nat
  exp : Int
deriving DecidableEq, Repr

/-- Go `readFloat` on a whole string: the literal read, or `none` when the
string is not one well-formed literal from its first to its last character. -/
def readFloat (s : List Char) : Option Literal :=
  -- optional sign
  let (neg, s1) := match s with
    | '+' :: cs => (false, cs)
    | '-' :: cs => (true, cs)
    | _ => (false, s)
  if s = [] then none else
  -- base prefix: `0x` followed by at least one more character
  let (hex, s2) := match s1 with
    | '0' :: x :: c :: cs => if lowerChar x = 'x' then (true, c :: cs) else (false, s1)
    | _ => (false, s1)
  let (m, s3) := scanMant hex s2 {}
  if !m.sawdigits then none else
  -- optional exponent
  let r : Option (Int × Bool × List Char) :=
    match s3 with
    | [] => if hex then none else some (0, false, [])
    | c :: cs =>
      if lowerChar c = (if hex then 'p' else 'e') then
        let (esign, s4) := match cs with
          | '+' :: t => ((1 : Int), t)
          | '-' :: t => ((-1 : Int), t)
          | _ => ((1 : Int), cs)
        match s4 with
        | [] => none
        | d :: _ =>
          if (digitVal false d).isSome then
            let (e, u, s5) := scanExp s4 0 false
            some (esign * (e : Int), u, s5)
          else none
      else if hex then none else some (0, false, c :: cs)
  match r with
  | none => none
  | some (e, u, rest) =>
    if rest ≠ [] then none
    else if (m.underscores || u) && !underscoreOK s then none
    else some ⟨neg, hex, m.mant, m.fracDigits, e⟩

/-- The binary64 nearest to the exact value of a literal. -/
def Literal.toF64 (l : Literal) : F64 :=
  let k : Int := if l.hex then l.exp - 4 * l.fracDigits else l.exp - l.fracDigits
  let b : Nat := if l.hex then 2 else 10
  F64.roundRat l.neg (l.mant * b ^ k.toNat) (b ^ (-k).toNat)

/-- Go `strconv.ParseFloat(s, 64)`: the special values, else the literal
rounded to nearest-even; `ErrSyntax` for anything that is not one literal,
`ErrRange` when the literal rounds to an infinity. -/
def ParseFloat (s : String) : Except NumError F64 :=
  match special s.data with
  | some f => .ok f
  | none =>
    match readFloat s.data with
    | none => .error .badSyntax
    | some l =>
      let f := l.toF64
      if f.expo = 2047 then .error .outOfRange else .ok f

/-! ## `time.Parse(time.RFC3339, s)`, `Time.Sub`, `Duration.Seconds`

An instant is its number of nanoseconds since the Unix epoch. -/

/-- Is the character an ASCII decimal digit? -/
def isDigit (c : Char) : Bool := decide ('0'.toNat ≤ c.toNat ∧ c.toNat ≤ '9'.toNat)

/-- The value of an ASCII decimal digit. -/
def digit (c : Char) : Nat := c.toNat - '0'.toNat

/-- The value of a run of decimal digits, most significant first. -/
def digitsVal (cs : List Char) : Nat := cs.foldl (fun n c => n * 10 + digit c) 0

/-- A leap year of the proleptic Gregorian calendar. -/
def isLeap (year : Nat) : Bool :=
  year % 4 = 0 && (year % 100 != 0 || year % 400 = 0)

/-- Go `daysIn`: the number of days of a month (`1 .. 12`) in a year. -/
def daysIn (month year : Nat) : Nat :=
  if month = 2 then (if isLeap year then 29 else 28)
  else if month = 4 ∨ month = 6 ∨ month = 9 ∨ month = 11 then 30 else 31

/-- Days from 1970-01-01 to the given civil date of the proleptic Gregorian
calendar (years counted from March, shifted by one 400-year era so that the
arithmetic stays in the naturals). -/
def daysFromCivil (y m d : Nat) : Int :=
  let yy := if m ≤ 2 then y + 399 else y + 400
  let era := yy / 400
  let yoe := yy % 400
  let mp := (m + 9) % 12
  let doy := (153 * mp + 2) / 5 + d - 1
  let doe := yoe * 365 + yoe / 4 - yoe / 100 + doy
  ((era * 146097 + doe : Nat) : Int) - 865565

/-- Go `getnum(s, fixed)`: a one- or two-digit number at the head of the
input; with `fixed` exactly two digits are required. -/
def getnum (cs : List Char) (fixed : Bool) : Option (Nat × List Char) :=
  match cs with
  | a :: b :: rest =>
    if !isDigit a then none
    else if isDigit b then some (digit a * 10 + digit b, rest)
    else if fixed then none else some (digit a, b :: rest)
  | [a] => if !isDigit a ∨ fixed then none else some (digit a, [])
  | [] => none

/-- Drop one expected literal character of the layout. -/
def skipChar (c : Char) (cs : List Char) : Option (List Char) :=
  match cs with
  | x :: rest => if x = c then some rest else none
  | [] => none

/-- The fractional second `time.Parse` accepts after the seconds although the
layout has none: a period or comma followed by digits, of which the first
nine count.  Returns the nanoseconds and the rest. -/
def parseFrac (cs : List Char) : Nat × List Char :=
  match cs with
  | sep :: d :: rest =>
    if (sep = '.' ∨ sep = ',') ∧ isDigit d then
      let ds := (d :: rest).takeWhile isDigit
      let used := ds.take 9
      (digitsVal used * 10 ^ (9 - used.length), (d :: rest).dropWhile isDigit)
    else (0, cs)
  | _ => (0, cs)

/-- The zone element `Z07:00` of the layout at the end of the input: `Z`, or
a sign, two digits, a colon and two digits.  Returns the offset east of UTC
in seconds. -/
def parseZone (cs : List Char) : Option Int :=
  match cs with
  | ['Z'] => some 0
  | [sg, h1, h2, c, m1, m2] =>
    if c ≠ ':' ∨ !isDigit h1 ∨ !isDigit h2 ∨ !isDigit m1 ∨ !isDigit m2 then none
    else
      let hr := digit h1 * 10 + digit h2
      let mm := digit m1 * 10 + digit m2
      if 24 < hr ∨ 60 < mm then none
      else if sg = '+' then some (((hr * 60 + mm) * 60 : Nat) : Int)
      else if sg = '-' then some (-(((hr * 60 + mm) * 60 : Nat) : Int))
      else none
  | _ => none

/-- Go `time.Parse(time.RFC3339, s)`: the instant denoted by
`2006-01-02T15:04:05Z07:00`-shaped input, in nanoseconds since the Unix
epoch; `none` when `time.Parse` returns an error. -/
def parseRFC3339 (s : String) : Option Int :=
  match s.data with
  | y1 :: y2 :: y3 :: y4 :: rest =>
    if !(isDigit y1 && isDigit y2 && isDigit y3 && isDigit y4) then none else
    let year := digitsVal [y1, y2, y3, y4]
    (skipChar '-' rest).bind fun r1 =>
    (getnum r1 true).bind fun (month, r2) =>
    if month = 0 ∨ 12 < month then none else
    (skipChar '-' r2).bind fun r3 =>
    (getnum r3 true).bind fun (day, r4) =>
    (skipChar 'T' r4).bind fun r5 =>
    (getnum r5 false).bind fun (hour, r6) =>
    if 24 ≤ hour then none else
    (skipChar ':' r6).bind fun r7 =>
    (getnum r7 true).bind fun (min, r8) =>
    if 60 ≤ min then none else
    (skipChar ':' r8).bind fun r9 =>
    (getnum r9 true).bind fun (sec, r10) =>
    if 60 ≤ sec then none else
    let (nsec, r11) := parseFrac r10
    (parseZone r11).bind fun offset =>
    if day < 1 ∨ daysIn month year < day then none else
    some (((daysFromCivil year month day * 86400
      + ((hour * 3600 + min * 60 + sec : Nat) : Int)) - offset) * 1000000000
      + (nsec : Int))
  | _ => none

/-- The largest `time.Duration`, `1<<63 - 1` nanoseconds. -/
def maxDuration : Int := 2 ^ 63 - 1

/-- The smallest `time.Duration`, `-1 << 63` nanoseconds. -/
def minDuration : Int := -(2 ^ 63)

/-- Go `t.Sub(u)`: the duration `t - u` in nanoseconds; when it does not fit
a `Duration` the largest, respectively smallest, duration is returned. -/
def Sub (t u : Int) : Int :=
  let d := t - u
  if maxDuration < d then maxDuration
  else if d < minDuration then minDuration
  else d

/-- Go `d.Seconds()`: `float64(d / Second) + float64(d % Second) / 1e9`, with
Go's truncating integer division. -/
def Seconds (d : Int) : F64 :=
  let sec := Int.tdiv d 1000000000
  let nsec := Int.tmod d 1000000000
  F64.add (F64.ofInt sec) (F64.div (F64.ofInt nsec) (F64.ofInt 1000000000))

/-! ## Decoded JSON (`encoding/json` into `map[string]any`) -/

/-- A JSON value, as `encoding/json` decodes it into an `any`; an object keeps
its members in document order. -/
inductive JSON where
  | null
  | bool (b : Bool)
  | num (literal : String)
  | str (s : String)
  | arr (xs : List JSON)
  | obj (members : List (String × JSON))

/-- The map `json.Unmarshal(body, &result)` leaves in
`var result map[string]any`: the members of the document when the body is a
JSON object, the nil map (no members) when the body is not valid JSON or is
not an object.  The error of `Unmarshal` is discarded by the caller. -/
def Unmarshal (body : Option JSON) : List (String × JSON) :=
  match body with
  | some (.obj members) => members
  | _ => []

/-- Go map indexing `m[k]` on a decoded object: the value of the last member
named `k` (a later duplicate replaces an earlier one while decoding), the nil
`any` when there is none. -/
def index (m : List (String × JSON)) (k : String) : JSON :=
  m.foldl (fun acc kv => if kv.1 = k then kv.2 else acc) .null

/-- The type assertion `v.(map[string]any)`; `none` is the run-time panic. -/
def assertMap (v : JSON) : Option (List (String × JSON)) :=
  match v with
  | .obj members => some members
  | _ => none

/-- The type assertion `v.(string)`; `none` is the run-time panic. -/
def assertString (v : JSON) : Option String :=
  match v with
  | .str s => some s
  | _ => none

/-! ## Prometheus descriptors and constant metrics -/

/-- Go `prometheus.Desc`, as built by `prometheus.NewDesc`. -/
structure Desc where
  fqName : String
  help : String
  variableLabels : List String
  constLabels : List (String × String)
deriving DecidableEq, Repr

/-- Go `prometheus.ValueType`. -/
inductive ValueType where
  | CounterValue
  | GaugeValue
  | UntypedValue
deriving DecidableEq, Repr

/-- A constant metric, as built by `prometheus.MustNewConstMetric`. -/
structure Metric where
  desc : Desc
  valueType : ValueType
  value : F64
  labelValues : List String
deriving DecidableEq, Repr

/-- Go `prometheus.BuildFQName`: the non-empty parts joined by `_`; empty
when the name is empty. -/
def BuildFQName (ns subsystem name : String) : String :=
  if name = "" then ""
  else if ns ≠ "" ∧ subsystem ≠ "" then ns ++ "_" ++ subsystem ++ "_" ++ name
  else if ns ≠ "" then ns ++ "_" ++ name
  else if subsystem ≠ "" then subsystem ++ "_" ++ name
  else name

/-- Go `prometheus.MustNewConstMetric`; `none` is its panic, raised when the
number of label values differs from the number of variable labels. -/
def MustNewConstMetric (desc : Desc) (valueType : ValueType) (value : F64)
    (labelValues : List String) : Option Metric :=
  if labelValues.length = desc.variableLabels.length
  then some ⟨desc, valueType, value, labelValues⟩ else none

/-- The label pairs of a metric: each variable label of its descriptor with
the value given for it. -/
def Metric.labels (m : Metric) : List (String × String) :=
  m.desc.variableLabels.zip m.labelValues

/-! ## `main.go` -/

/-- Line 18: `const namespace = "gaiad"`. -/
def namespace_ : String := "gaiad"

/-- Line 19: `const statusApi = "/status"`. -/
def statusApi : String := "/status"

/-- Line 20: `const networkApi = "/net_info"`. -/
def networkApi : String := "/net_info"

/-- Lines 32-36. -/
def latestBlockHeight : Desc :=
  ⟨BuildFQName namespace_ "" "latest_block_height", "Current block number.",
    ["node_id", "chain_id"], []⟩

/-- Lines 37-41. -/
def latestBlockTimeDiff : Desc :=
  ⟨BuildFQName namespace_ "" "latest_block_time_diff",
    "Difference between current time and the latest block time.",
    ["node_id", "chain_id"], []⟩

/-- Lines 42-46. -/
def peersNumber : Desc :=
  ⟨BuildFQName namespace_ "" "number_of_peers", "Number of peers.",
    ["node_id", "chain_id"], []⟩

/-- Lines 49-51: `type Exporter struct`. -/
structure Exporter where
  gaiadEndpoint : String
deriving DecidableEq, Repr

/-- Lines 53-57. -/
def NewExporter (gaiadEndpoint : String) : Exporter := ⟨gaiadEndpoint⟩

/-- What one `GET` of the package-level `client` yields. -/
inductive Reply where
  /-- `http.NewRequest` rejects the URL: no request is sent. -/
  | newRequestErr
  /-- `client.Do` returns an error (transport failure). -/
  | doErr
  /-- A response arrives but `ioutil.ReadAll(resp.Body)` fails. -/
  | readErr (statusCode : Nat)
  /-- A response with the given HTTP status code whose body was read in
  full; `doc` is the JSON value of the body, `none` if it is not valid JSON. -/
  | body (statusCode : Nat) (doc : Option JSON)

/-- The environment of one scrape: what the upstream answers to a `GET` of
each URL, and the reading of `time.Now()`. -/
structure World where
  get : String → Reply
  now : Int

/-- How a call ends: it returns, or the process is terminated by `log.Fatal`,
or by a run-time panic. -/
inductive Outcome where
  | returned
  | fatal
  | panicked
deriving DecidableEq, Repr

/-- The program state a call works on: the `Exporter` the receiver points to,
the URLs handed to `client.Do` so far, and what has been sent on the
descriptor channel and on the metric channel so far. -/
structure State where
  exporter : Exporter
  requests : List String
  descCh : List Desc
  metricCh : List Metric
deriving DecidableEq, Repr

/-- Send on the metric channel. -/
def State.send (s : State) (m : Metric) : State :=
  { s with metricCh := s.metricCh ++ [m] }

/-- Lines 68-82 and 103-117, common to both fetches: build the request, do
it, read the body and unmarshal it into `result`.  Any error is `log.Fatal`;
the status code of the response is never looked at. -/
def fetch (w : World) (url : String) (s : State) :
    State × Except Outcome (List (String × JSON)) :=
  match w.get url with
  | .newRequestErr => (s, .error .fatal)
  | .doErr => ({ s with requests := s.requests ++ [url] }, .error .fatal)
  | .readErr _ => ({ s with requests := s.requests ++ [url] }, .error .fatal)
  | .body _ doc => ({ s with requests := s.requests ++ [url] }, .ok (Unmarshal doc))

/-- A failed type assertion panics. -/
def orPanic {α : Type} (o : Option α) : Except Outcome α :=
  match o with
  | some a => .ok a
  | none => .error .panicked

/-- Lines 83-94: the four extractions from `result`, in source order; a failed
type assertion panics, a failed parse is `log.Fatal`. -/
def statusFields (result : List (String × JSON)) :
    Except Outcome (String × String × F64 × Int) := do
  let nodeId ← orPanic <| (assertMap (index result "result")).bind fun r =>
    (assertMap (index r "node_info")).bind fun n => assertString (index n "id")
  let chainId ← orPanic <| (assertMap (index result "result")).bind fun r =>
    (assertMap (index r "node_info")).bind fun n => assertString (index n "network")
  let heightStr ← orPanic <| (assertMap (index result "result")).bind fun r =>
    (assertMap (index r "sync_info")).bind fun n =>
      assertString (index n "latest_block_height")
  let blockHeight ← match ParseFloat heightStr with
    | .ok f => pure f
    | .error _ => throw Outcome.fatal
  let timeStr ← orPanic <| (assertMap (index result "result")).bind fun r =>
    (assertMap (index r "sync_info")).bind fun n =>
      assertString (index n "latest_block_time")
  let blockTime ← match parseRFC3339 timeStr with
    | some t => pure t
    | none => throw Outcome.fatal
  pure (nodeId, chainId, blockHeight, blockTime)

/-- Lines 118-122: the extraction of `n_peers` from `result`. -/
def networkFields (result : List (String × JSON)) : Except Outcome F64 := do
  let peersStr ← orPanic <| (assertMap (index result "result")).bind fun r =>
    assertString (index r "n_peers")
  match ParseFloat peersStr with
  | .ok f => pure f
  | .error _ => throw Outcome.fatal

/-- Lines 102-124. -/
def updateNetworkGaiadMetricsFromApi (w : World) (nodeId chainId : String)
    (s : State) : State × Outcome :=
  match fetch w (s.exporter.gaiadEndpoint ++ networkApi) s with
  | (s1, .error o) => (s1, o)
  | (s1, .ok result) =>
    match networkFields result with
    | .error o => (s1, o)
    | .ok numPeers =>
      match MustNewConstMetric peersNumber .GaugeValue numPeers [nodeId, chainId] with
      | none => (s1, .panicked)
      | some m => (s1.send m, .returned)

/-- Lines 67-100. -/
def updateGaiadMetricsFromApi (w : World) (s : State) : State × Outcome :=
  match fetch w (s.exporter.gaiadEndpoint ++ statusApi) s with
  | (s1, .error o) => (s1, o)
  | (s1, .ok result) =>
    match statusFields result with
    | .error o => (s1, o)
    | .ok (nodeId, chainId, blockHeight, blockTime) =>
      let curTime := w.now
      let blockTimeDiff := Seconds (Sub curTime blockTime)
      match MustNewConstMetric latestBlockHeight .CounterValue blockHeight
          [nodeId, chainId] with
      | none => (s1, .panicked)
      | some m1 =>
        let s2 := s1.send m1
        match MustNewConstMetric latestBlockTimeDiff .GaugeValue blockTimeDiff
            [nodeId, chainId] with
        | none => (s2, .panicked)
        | some m2 => updateNetworkGaiadMetricsFromApi w nodeId chainId (s2.send m2)

/-- Lines 58-62. -/
def Describe (s : State) : State × Outcome :=
  ({ s with descCh := s.descCh ++ [latestBlockHeight, latestBlockTimeDiff, peersNumber] },
    .returned)

/-- Lines 63-65. -/
def Collect (w : World) (s : State) : State × Outcome :=
  updateGaiadMetricsFromApi w s

/-! ## Vocabulary of the specification -/

/-- The value found in a decoded document by following member names from the
top; the nil value when a name is missing or an intermediate value is not an
object. -/
def getPath : JSON → List String → JSON
  | v, [] => v
  | .obj members, k :: ks => getPath (index members k) ks
  | _, _ :: _ => .null

/-- The value at a path of a response body; the nil value when the body is
not valid JSON. -/
def valueAt (body : Option JSON) (path : List String) : JSON :=
  match body with
  | some doc => getPath doc path
  | none => .null

/-- The string at a path of a response body, if there is a string there. -/
def stringAt (body : Option JSON) (path : List String) : Option String :=
  assertString (valueAt body path)

/-- Path `result.node_info.id`. -/
def pathId : List String := ["result", "node_info", "id"]

/-- Path `result.node_info.network`. -/
def pathNetwork : List String := ["result", "node_info", "network"]

/-- Path `result.sync_info.latest_block_height`. -/
def pathHeight : List String := ["result", "sync_info", "latest_block_height"]

/-- Path `result.sync_info.latest_block_time`. -/
def pathTime : List String := ["result", "sync_info", "latest_block_time"]

/-- Path `result.n_peers`. -/
def pathPeers : List String := ["result", "n_peers"]

/-- A well-formed status document: the four paths hold strings, the height is
accepted by `ParseFloat` with value `height`, the time is accepted by
`time.Parse` as the instant `time`. -/
structure WellFormedStatus (body : Option JSON) (nodeId chainId : String)
    (height : F64) (time : Int) : Prop where
  id : stringAt body pathId = some nodeId
  network : stringAt body pathNetwork = some chainId
  height : ∃ h, stringAt body pathHeight = some h ∧ ParseFloat h = .ok height
  time : ∃ t, stringAt body pathTime = some t ∧ parseRFC3339 t = some time

/-- A well-formed network document: `result.n_peers` is a string accepted by
`ParseFloat` with value `peers`. -/
def WellFormedNetwork (body : Option JSON) (peers : F64) : Prop :=
  ∃ p, stringAt body pathPeers = some p ∧ ParseFloat p = .ok peers

/-- The network-info fetch or extraction fails: no usable reply, or a body in
which `result.n_peers` is not a string that `ParseFloat` accepts. -/
def NetworkFails (r : Reply) : Prop :=
  match r with
  | .body _ doc =>
    stringAt doc pathPeers = none ∨
      ∃ p e, stringAt doc pathPeers = some p ∧ ParseFloat p = .error e
  | _ => True

/-- The shape of the `date-time` production of RFC 3339, section 5.6:
`4DIGIT "-" 2DIGIT "-" 2DIGIT "T" 2DIGIT ":" 2DIGIT ":" 2DIGIT`, an optional
`"." 1*DIGIT`, then `"Z"` or `("+" / "-") 2DIGIT ":" 2DIGIT`, where `T` and `Z`
may be lower case.  Every RFC 3339 timestamp has this shape; the ranges of
the fields are not checked. -/
def rfc3339Shape (s : String) : Bool :=
  let head := s.data.take 19
  let rest := s.data.drop 19
  let zone := match rest with
    | '.' :: d :: more => if isDigit d then more.dropWhile isDigit else rest
    | _ => rest
  decide (head.length = 19)
    && (List.zip head "dddd-dd-ddTdd:dd:dd".data).all (fun p =>
      if p.2 = 'd' then isDigit p.1
      else if p.2 = 'T' then decide (p.1 = 'T' ∨ p.1 = 't')
      else decide (p.1 = p.2))
    && (match zone with
      | [z] => decide (z = 'Z' ∨ z = 'z')
      | [sg, a, b, c, d, e] =>
        decide (sg = '+' ∨ sg = '-') && isDigit a && isDigit b && decide (c = ':')
          && isDigit d && isDigit e
      | _ => false)

/-- The state after the request to `url` has been handed to `client.Do`. -/
def State.requested (s : State) (url : String) : State :=
  { s with requests := s.requests ++ [url] }

/-- A reply with its HTTP status code forgotten. -/
def Reply.content (r : Reply) : Reply :=
  match r with
  | .readErr _ => .readErr 0
  | .body _ doc => .body 0 doc
  | r => r

/-- The label pairs every sample of a scrape carries. -/
def labelsOf (nodeId chainId : String) : List (String × String) :=
  [("node_id", nodeId), ("chain_id", chainId)]

/-- The `latest_block_height` sample. -/
def heightSample (nodeId chainId : String) (v : F64) : Metric :=
  ⟨latestBlockHeight, .CounterValue, v, [nodeId, chainId]⟩

/-- The `latest_block_time_diff` sample. -/
def timeDiffSample (nodeId chainId : String) (v : F64) : Metric :=
  ⟨latestBlockTimeDiff, .GaugeValue, v, [nodeId, chainId]⟩

/-- The `number_of_peers` sample. -/
def peersSample (nodeId chainId : String) (v : F64) : Metric :=
  ⟨peersNumber, .GaugeValue, v, [nodeId, chainId]⟩

/-- The four extractions of the status document as a function of the strings
at the four paths. -/
def statusOf (sId sNet sHeight sTime : Option String) :
    Except Outcome (String × String × F64 × Int) := do
  let nodeId ← orPanic sId
  let chainId ← orPanic sNet
  let heightStr ← orPanic sHeight
  let blockHeight ← match ParseFloat heightStr with
    | .ok f => pure f
    | .error _ => throw Outcome.fatal
  let timeStr ← orPanic sTime
  let blockTime ← match parseRFC3339 timeStr with
    | some t => pure t
    | none => throw Outcome.fatal
  pure (nodeId, chainId, blockHeight, blockTime)

/-- The extraction of the network document as a function of the string at
`result.n_peers`. -/
def networkOf (sPeers : Option String) : Except Outcome F64 := do
  let peersStr ← orPanic sPeers
  match ParseFloat peersStr with
  | .ok f => pure f
  | .error _ => throw Outcome.fatal

/-- What a scrape hands to the sink and how it ends, given the results of the
two extractions, when both requests are answered with a body. -/
def scrapeResult (status : Except Outcome (String × String × F64 × Int))
    (network : Except Outcome F64) (now : Int) : List Metric × Outcome :=
  match status with
  | .error o => ([], o)
  | .ok (nodeId, chainId, height, time) =>
    match network with
    | .error o =>
      ([heightSample nodeId chainId height,
        timeDiffSample nodeId chainId (Seconds (Sub now time))], o)
    | .ok peers =>
      ([heightSample nodeId chainId height,
        timeDiffSample nodeId chainId (Seconds (Sub now time)),
        peersSample nodeId chainId peers], .returned)

/-! ## Concrete scenarios -/

/-- A status document with the identity of the specification's scenario and
the given height and time strings. -/
def statusDoc (height time : String) : JSON :=
  .obj [("result", .obj [
    ("node_info", .obj [("id", .str "abc123"), ("network", .str "testnet-1")]),
    ("sync_info", .obj [("latest_block_height", .str height),
      ("latest_block_time", .str time)])])]

/-- A network document with the given peer count string. -/
def networkDoc (peers : String) : JSON :=
  .obj [("result", .obj [("n_peers", .str peers)])]

/-- An upstream at `http://node` answering the two endpoints with the given
replies, and every other URL with a transport error. -/
def upstream (status network : Reply) (now : Int) : World :=
  ⟨fun url =>
    if url = "http://node/status" then status
    else if url = "http://node/net_info" then network
    else .doErr, now⟩

/-- A fresh exporter for `http://node`: nothing requested or sent yet. -/
def freshState : State := ⟨NewExporter "http://node", [], [], []⟩

/-- The instant `2024-01-01T00:01:40Z`. -/
def scenarioNow : Int := 1704067300000000000

/-- The scenario of the specification: height `500`, block time
`2024-01-01T00:00:00Z`, three peers, scraped at `2024-01-01T00:01:40Z`, both
replies with code 200. -/
def scenario : World :=
  upstream (.body 200 (some (statusDoc "500" "2024-01-01T00:00:00Z")))
    (.body 200 (some (networkDoc "3"))) scenarioNow

/-- The scenario with both replies carrying HTTP status 500. -/
def scenario500 : World :=
  upstream (.body 500 (some (statusDoc "500" "2024-01-01T00:00:00Z")))
    (.body 500 (some (networkDoc "3"))) scenarioNow

/-- The scenario with the network-info request failing in transport. -/
def scenarioNetDown : World :=
  upstream (.body 200 (some (statusDoc "500" "2024-01-01T00:00:00Z"))) .doErr scenarioNow

/-- The scenario with a non-numeric block height. -/
def scenarioBadHeight : World :=
  upstream (.body 200 (some (statusDoc "abc" "2024-01-01T00:00:00Z")))
    (.body 200 (some (networkDoc "3"))) scenarioNow

/-- The scenario with a status body that is not valid JSON. -/
def scenarioBadJSON : World :=
  upstream (.body 200 none) (.body 200 (some (networkDoc "3"))) scenarioNow

/-- The scenario with the block time of a node that has no block yet, the
zero time `0001-01-01T00:00:00Z`. -/
def scenarioZeroTime : World :=
  upstream (.body 200 (some (statusDoc "0" "0001-01-01T00:00:00Z")))
    (.body 200 (some (networkDoc "3"))) scenarioNow

/-- The scenario with the block height `1234` and seven peers. -/
def scenario1234 : World :=
  upstream (.body 200 (some (statusDoc "1234" "2024-01-01T00:00:00Z")))
    (.body 200 (some (networkDoc "7"))) scenarioNow

/-- The scenario with a block time `2024-01-01T00:03:20Z` that is later than
the time of the scrape, `2024-01-01T00:01:40Z`. -/
def scenarioClockSkew : World :=
  upstream (.body 200 (some (statusDoc "500" "2024-01-01T00:03:20Z")))
    (.body 200 (some (networkDoc "3"))) scenarioNow

/-- The scenario with the block height `NaN`. -/
def scenarioNaNHeight : World :=
  upstream (.body 200 (some (statusDoc "NaN" "2024-01-01T00:00:00Z")))
    (.body 200 (some (networkDoc "3"))) scenarioNow

/-- The scenario with a block time whose hour has one digit,
`2024-01-01T1:00:00Z`. -/
def scenarioShortHour : World :=
  upstream (.body 200 (some (statusDoc "500" "2024-01-01T1:00:00Z")))
    (.body 200 (some (networkDoc "3"))) scenarioNow

/-- The scenario with a block time that is a date only, `2024-01-01`. -/
def scenarioDateOnly : World :=
  upstream (.body 200 (some (statusDoc "500" "2024-01-01")))
    (.body 200 (some (networkDoc "3"))) scenarioNow

/-- A status document with the same values at the four paths as
`statusDoc "500" "2024-01-01T00:00:00Z"` but other content around them:
extra members, and an earlier `node_info` member replaced by a later one. -/
def statusDocNoisy : JSON :=
  .obj [("jsonrpc", .str "2.0"), ("id", .num "-1"),
    ("result", .obj [
      ("node_info", .obj [("id", .str "stale")]),
      ("validator_info", .obj [("voting_power", .str "0")]),
      ("sync_info", .obj [("latest_block_height", .str "500"),
        ("catching_up", .bool false),
        ("latest_block_time", .str "2024-01-01T00:00:00Z")]),
      ("node_info", .obj [("id", .str "abc123"), ("network", .str "testnet-1"),
        ("moniker", .str "node0")])])]

/-- A network document with three peers and other members around the count. -/
def networkDocNoisy : JSON :=
  .obj [("result", .obj [("listening", .bool true), ("n_peers", .str "3"),
    ("peers", .arr [])])]

/-- The noisy documents, the status one served with code 203. -/
def scenarioNoisy : World :=
  upstream (.body 203 (some statusDocNoisy)) (.body 200 (some networkDocNoisy)) scenarioNow

/-! ## Extraction lemmas -/

theorem extract3 (body : Option JSON) (a b : String) :
    ((assertMap (index (Unmarshal body) "result")).bind fun r =>
      (assertMap (index r a)).bind fun n => assertString (index n b))
      = stringAt body ["result", a, b] := by
  unfold stringAt valueAt
  rcases body with _ | doc
  · simp [Unmarshal, index, assertMap, assertString]
  · cases doc <;> try simp [Unmarshal, index, assertMap, assertString, getPath]
    rename_i members
    cases h1 : List.foldl (fun acc kv => if kv.1 = "result" then kv.2 else acc) JSON.null members
      <;> try simp [assertMap, assertString, getPath, index]
    rename_i m2
    cases h2 : List.foldl (fun acc kv => if kv.1 = a then kv.2 else acc) JSON.null m2
      <;> simp [assertMap, assertString, getPath, index]

theorem extract2 (body : Option JSON) (a : String) :
    ((assertMap (index (Unmarshal body) "result")).bind fun r =>
      assertString (index r a)) = stringAt body ["result", a] := by
  unfold stringAt valueAt
  rcases body with _ | doc
  · simp [Unmarshal, index, assertMap, assertString]
  · cases doc <;> try simp [Unmarshal, index, assertMap, assertString, getPath]
    rename_i members
    cases h1 : List.foldl (fun acc kv => if kv.1 = "result" then kv.2 else acc) JSON.null members
      <;> simp [assertMap, assertString, getPath, index]

theorem statusFields_eq (body : Option JSON) :
    statusFields (Unmarshal body) = statusOf (stringAt body pathId)
      (stringAt body pathNetwork) (stringAt body pathHeight) (stringAt body pathTime) := by
  unfold statusFields statusOf
  simp only [extract3, pathId, pathNetwork, pathHeight, pathTime]

theorem networkFields_eq (body : Option JSON) :
    networkFields (Unmarshal body) = networkOf (stringAt body pathPeers) := by
  unfold networkFields networkOf
  simp only [extract2, pathPeers]

/-! ## The control flow of a scrape -/

theorem network_eq (w : World) (nodeId chainId : String) (s : State) :
    updateNetworkGaiadMetricsFromApi w nodeId chainId s =
      match w.get (s.exporter.gaiadEndpoint ++ networkApi) with
      | .newRequestErr => (s, .fatal)
      | .doErr => (s.requested (s.exporter.gaiadEndpoint ++ networkApi), .fatal)
      | .readErr _ => (s.requested (s.exporter.gaiadEndpoint ++ networkApi), .fatal)
      | .body _ doc =>
        match networkOf (stringAt doc pathPeers) with
        | .error o => (s.requested (s.exporter.gaiadEndpoint ++ networkApi), o)
        | .ok v => ((s.requested (s.exporter.gaiadEndpoint ++ networkApi)).send
            (peersSample nodeId chainId v), .returned) := by
  unfold updateNetworkGaiadMetricsFromApi fetch
  cases h : w.get (s.exporter.gaiadEndpoint ++ networkApi) <;> simp only [State.requested]
  rw [networkFields_eq]
  cases networkOf (stringAt _ pathPeers) <;>
    simp [MustNewConstMetric, peersNumber, peersSample]

theorem collect_eq (w : World) (s : State) :
    Collect w s =
      match w.get (s.exporter.gaiadEndpoint ++ statusApi) with
      | .newRequestErr => (s, .fatal)
      | .doErr => (s.requested (s.exporter.gaiadEndpoint ++ statusApi), .fatal)
      | .readErr _ => (s.requested (s.exporter.gaiadEndpoint ++ statusApi), .fatal)
      | .body _ doc =>
        match statusOf (stringAt doc pathId) (stringAt doc pathNetwork)
            (stringAt doc pathHeight) (stringAt doc pathTime) with
        | .error o => (s.requested (s.exporter.gaiadEndpoint ++ statusApi), o)
        | .ok (nodeId, chainId, blockHeight, blockTime) =>
          updateNetworkGaiadMetricsFromApi w nodeId chainId
            (((s.requested (s.exporter.gaiadEndpoint ++ statusApi)).send
              (heightSample nodeId chainId blockHeight)).send
              (timeDiffSample nodeId chainId (Seconds (Sub w.now blockTime)))) := by
  unfold Collect updateGaiadMetricsFromApi fetch
  cases h : w.get (s.exporter.gaiadEndpoint ++ statusApi) <;> simp only [State.requested]
  rw [statusFields_eq]
  rcases statusOf (stringAt _ pathId) (stringAt _ pathNetwork)
    (stringAt _ pathHeight) (stringAt _ pathTime) with o | ⟨a, b, c, d⟩ <;>
    simp [MustNewConstMetric, latestBlockHeight, latestBlockTimeDiff, heightSample,
      timeDiffSample]

theorem statusOf_wellFormed {body : Option JSON} {nodeId chainId : String} {height : F64}
    {time : Int} (h : WellFormedStatus body nodeId chainId height time) :
    statusOf (stringAt body pathId) (stringAt body pathNetwork) (stringAt body pathHeight)
      (stringAt body pathTime) = .ok (nodeId, chainId, height, time) := by
  obtain ⟨hi, hn, ⟨hs, hh, hp⟩, ⟨ts, ht, hq⟩⟩ := h
  simp [statusOf, hi, hn, hh, ht, hp, hq, orPanic, bind, Except.bind, pure, Except.pure]

theorem networkOf_wellFormed {body : Option JSON} {peers : F64}
    (h : WellFormedNetwork body peers) :
    networkOf (stringAt body pathPeers) = .ok peers := by
  obtain ⟨p, hp, hf⟩ := h
  simp [networkOf, hp, hf, orPanic, bind, Except.bind, pure, Except.pure]

theorem collect_exporter (w : World) (s : State) : (Collect w s).1.exporter = s.exporter := by
  rw [collect_eq]
  cases w.get (s.exporter.gaiadEndpoint ++ statusApi) <;> try rfl
  rename_i c doc
  simp only
  rcases statusOf (stringAt doc pathId) (stringAt doc pathNetwork)
    (stringAt doc pathHeight) (stringAt doc pathTime) with o | ⟨a, b, c, d⟩
  · rfl
  · simp only [network_eq]
    cases w.get _ <;> try rfl
    rename_i c2 doc2
    simp only
    cases networkOf (stringAt doc2 pathPeers) <;> rfl

theorem collect_bodies (w : World) (s : State) (c1 c2 : Nat) (sdoc ndoc : Option JSON)
    (hs : w.get (s.exporter.gaiadEndpoint ++ statusApi) = .body c1 sdoc)
    (hn : w.get (s.exporter.gaiadEndpoint ++ networkApi) = .body c2 ndoc) :
    (Collect w s).1.metricCh = s.metricCh ++
        (scrapeResult (statusOf (stringAt sdoc pathId) (stringAt sdoc pathNetwork)
          (stringAt sdoc pathHeight) (stringAt sdoc pathTime))
          (networkOf (stringAt ndoc pathPeers)) w.now).1
      ∧ (Collect w s).2 =
        (scrapeResult (statusOf (stringAt sdoc pathId) (stringAt sdoc pathNetwork)
          (stringAt sdoc pathHeight) (stringAt sdoc pathTime))
          (networkOf (stringAt ndoc pathPeers)) w.now).2 := by
  rw [collect_eq, hs]
  simp only
  rcases statusOf (stringAt sdoc pathId) (stringAt sdoc pathNetwork)
    (stringAt sdoc pathHeight) (stringAt sdoc pathTime) with o | ⟨a, b, c, d⟩
  · simp [scrapeResult, State.requested]
  · simp only [network_eq, State.send, State.requested, hn]
    cases networkOf (stringAt ndoc pathPeers) <;> simp [scrapeResult]

/-! ## Strings the parsers reject -/

theorem digitVal_not_digit (c : Char) (h : isDigit c = false) : digitVal false c = none := by
  simp only [isDigit, decide_eq_false_iff_not] at h
  simp only [digitVal]
  rw [if_neg h]
  simp

theorem scanMant_no_digit (l : List Char) (hl : ∀ c ∈ l, isDigit c = false) (st : Mantissa) :
    (scanMant false l st).1.sawdigits = st.sawdigits := by
  induction l generalizing st with
  | nil => simp [scanMant]
  | cons c cs ih =>
    have hc := digitVal_not_digit c (hl c (List.mem_cons_self _ _))
    have hcs : ∀ d ∈ cs, isDigit d = false := fun d hd => hl d (List.mem_cons_of_mem _ hd)
    simp only [scanMant, hc]
    split_ifs
    · rw [ih hcs]
    · rfl
    · rw [ih hcs]
    · rfl

theorem readFloat_no_digit (l : List Char) (hl : ∀ c ∈ l, isDigit c = false) :
    readFloat l = none := by
  have hhex : ∀ t : List Char, (∀ c ∈ t, isDigit c = false) →
      (match t with
        | '0' :: x :: y :: r => if lowerChar x = 'x' then (true, y :: r) else (false, t)
        | _ => (false, t)) = (false, t) := by
    intro t ht
    split
    · rename_i x y r
      have := ht '0' (List.mem_cons_self _ _)
      exact absurd this (by decide)
    · rfl
  have hscan : ∀ t : List Char, (∀ c ∈ t, isDigit c = false) →
      (scanMant false t {}).1.sawdigits = false := fun t ht => scanMant_no_digit t ht {}
  cases l with
  | nil => simp [readFloat]
  | cons c cs =>
    have hcs : ∀ d ∈ cs, isDigit d = false := fun d hd => hl d (List.mem_cons_of_mem _ hd)
    have hp : ∀ d ∈ (match c :: cs with
        | '+' :: t => (false, t)
        | '-' :: t => (true, t)
        | _ => (false, c :: cs)).2, isDigit d = false := by
      split
      · rename_i heq; simp only [List.cons.injEq] at heq; rw [← heq.2]; exact hcs
      · rename_i heq; simp only [List.cons.injEq] at heq; rw [← heq.2]; exact hcs
      · exact hl
    simp only [readFloat, List.cons_ne_nil, if_false, reduceCtorEq]
    generalize (match c :: cs with
        | '+' :: t => (false, t)
        | '-' :: t => (true, t)
        | _ => (false, c :: cs)) = p at hp ⊢
    simp only [hhex p.2 hp, hscan p.2 hp]
    simp

/-- A string without a decimal digit that is none of the special names is no
float literal. -/
theorem ParseFloat_no_digit (s : String) (hd : ∀ c ∈ s.data, isDigit c = false)
    (hsp : special s.data = none) : ParseFloat s = .error .badSyntax := by
  simp only [ParseFloat, hsp, readFloat_no_digit s.data hd]

theorem getnum_length (cs : List Char) (fixed : Bool) (n : Nat) (r : List Char)
    (h : getnum cs fixed = some (n, r)) :
    r.length + 1 ≤ cs.length ∧ (fixed = true → r.length + 2 ≤ cs.length) := by
  unfold getnum at h
  split at h
  · split_ifs at h <;> simp only [Option.some.injEq, Prod.mk.injEq] at h
    · rw [← h.2]; simp
    · rename_i hf
      rw [← h.2]
      refine ⟨by simp, fun hfx => absurd hfx hf⟩
  · split_ifs at h
    rename_i hf
    simp only [Option.some.injEq, Prod.mk.injEq] at h
    rw [← h.2]
    refine ⟨by simp, fun hfx => ?_⟩
    exact absurd (Or.inr hfx) hf
  · exact absurd h (by simp)

theorem skipChar_length (c : Char) (cs r : List Char) (h : skipChar c cs = some r) :
    cs.length = r.length + 1 := by
  unfold skipChar at h
  split at h
  · split_ifs at h
    simp only [Option.some.injEq] at h
    rw [← h]; simp
  · exact absurd h (by simp)

theorem parseFrac_length (cs : List Char) : (parseFrac cs).2.length ≤ cs.length := by
  unfold parseFrac
  split
  · rename_i sep d rest
    split_ifs
    · have := List.Sublist.length_le (List.dropWhile_sublist isDigit (l := d :: rest))
      simp only [List.length_cons] at this ⊢
      omega
    · exact le_rfl
  · exact le_rfl

theorem parseZone_length (cs : List Char) (o : Int) (h : parseZone cs = some o) :
    1 ≤ cs.length := by
  unfold parseZone at h
  split at h
  · simp
  · simp
  · exact absurd h (by simp)

theorem ite_none_eq_some {α : Type} {c : Prop} [Decidable c] {x : Option α} {v : α}
    (h : (if c then none else x) = some v) : x = some v := by
  split_ifs at h
  exact h

/-- The layout `2006-01-02T15:04:05Z07:00` needs at least 19 characters. -/
theorem parseRFC3339_length (s : String) (v : Int) (h : parseRFC3339 s = some v) :
    19 ≤ s.length := by
  have hlen : s.length = s.data.length := rfl
  rw [hlen]
  unfold parseRFC3339 at h
  split at h
  · rename_i y1 y2 y3 y4 rest heq
    rw [heq]
    have h := ite_none_eq_some h
    obtain ⟨r1, h1, h⟩ := Option.bind_eq_some.1 h
    obtain ⟨⟨month, r2⟩, h2, h⟩ := Option.bind_eq_some.1 h
    dsimp only at h
    have h := ite_none_eq_some h
    obtain ⟨r3, h3, h⟩ := Option.bind_eq_some.1 h
    obtain ⟨⟨day, r4⟩, h4, h⟩ := Option.bind_eq_some.1 h
    dsimp only at h
    obtain ⟨r5, h5, h⟩ := Option.bind_eq_some.1 h
    obtain ⟨⟨hour, r6⟩, h6, h⟩ := Option.bind_eq_some.1 h
    dsimp only at h
    have h := ite_none_eq_some h
    obtain ⟨r7, h7, h⟩ := Option.bind_eq_some.1 h
    obtain ⟨⟨min, r8⟩, h8, h⟩ := Option.bind_eq_some.1 h
    dsimp only at h
    have h := ite_none_eq_some h
    obtain ⟨r9, h9, h⟩ := Option.bind_eq_some.1 h
    obtain ⟨⟨sec, r10⟩, h10, h⟩ := Option.bind_eq_some.1 h
    dsimp only at h
    have h := ite_none_eq_some h
    have l11 := parseFrac_length r10
    generalize parseFrac r10 = pf at h l11
    obtain ⟨nsec, r11⟩ := pf
    dsimp only at h l11
    obtain ⟨offset, hz, -⟩ := Option.bind_eq_some.1 h
    have l1 := skipChar_length _ _ _ h1
    have l2 := (getnum_length _ _ _ _ h2).2 rfl
    have l3 := skipChar_length _ _ _ h3
    have l4 := (getnum_length _ _ _ _ h4).2 rfl
    have l5 := skipChar_length _ _ _ h5
    have l6 := (getnum_length _ _ _ _ h6).1
    have l7 := skipChar_length _ _ _ h7
    have l8 := (getnum_length _ _ _ _ h8).2 rfl
    have l9 := skipChar_length _ _ _ h9
    have l10 := (getnum_length _ _ _ _ h10).2 rfl
    have l12 := parseZone_length _ _ hz
    simp only [List.length_cons]
    omega
  · exact absurd h (by simp)

/-! ## The claims on the control flow -/

/-- C1. For a well-formed status document and a well-formed network document,
`Collect` returns after handing exactly three samples to the sink, in the
order `latest_block_height`, `latest_block_time_diff`, `number_of_peers`, and
all three carry the labels `node_id = node_info.id`,
`chain_id = node_info.network` of the status document. -/
theorem collect_emits_three_samples (w : World) (s : State) (c1 c2 : Nat)
    (sdoc ndoc : Option JSON) (nodeId chainId : String) (height peers : F64) (time : Int)
    (hs : w.get (s.exporter.gaiadEndpoint ++ statusApi) = .body c1 sdoc)
    (hn : w.get (s.exporter.gaiadEndpoint ++ networkApi) = .body c2 ndoc)
    (hw : WellFormedStatus sdoc nodeId chainId height time)
    (hp : WellFormedNetwork ndoc peers) :
    ∃ m1 m2 m3 : Metric,
      (Collect w s).2 = .returned
      ∧ (Collect w s).1.metricCh = s.metricCh ++ [m1, m2, m3]
      ∧ m1.desc = latestBlockHeight ∧ m2.desc = latestBlockTimeDiff
      ∧ m3.desc = peersNumber
      ∧ m1.labels = labelsOf nodeId chainId ∧ m2.labels = labelsOf nodeId chainId
      ∧ m3.labels = labelsOf nodeId chainId := by
  obtain ⟨h1, h2⟩ := collect_bodies w s c1 c2 sdoc ndoc hs hn
  rw [statusOf_wellFormed hw, networkOf_wellFormed hp] at h1 h2
  exact ⟨_, _, _, h2, h1, rfl, rfl, rfl, rfl, rfl, rfl⟩

theorem scenario_status_wellFormed :
    WellFormedStatus (some (statusDoc "500" "2024-01-01T00:00:00Z"))
      "abc123" "testnet-1" (F64.ofInt 500) 1704067200000000000 :=
  ⟨by decide, by decide, ⟨"500", by decide, by decide⟩,
    ⟨"2024-01-01T00:00:00Z", by decide, by decide⟩⟩

theorem scenario_network_wellFormed :
    WellFormedNetwork (some (networkDoc "3")) (F64.ofInt 3) :=
  ⟨"3", by decide, by decide⟩

/-- Witness of C1: the scenario of the specification. -/
theorem collect_emits_three_samples_witness :
    ∃ m1 m2 m3 : Metric,
      (Collect scenario freshState).2 = .returned
      ∧ (Collect scenario freshState).1.metricCh = freshState.metricCh ++ [m1, m2, m3]
      ∧ m1.desc = latestBlockHeight ∧ m2.desc = latestBlockTimeDiff
      ∧ m3.desc = peersNumber
      ∧ m1.labels = labelsOf "abc123" "testnet-1"
      ∧ m2.labels = labelsOf "abc123" "testnet-1"
      ∧ m3.labels = labelsOf "abc123" "testnet-1" :=
  collect_emits_three_samples scenario freshState 200 200 _ _ _ _ _ _ _
    rfl rfl scenario_status_wellFormed scenario_network_wellFormed

/-- C5 fails as stated: with a well-formed status document and the
network-info request failing in transport, `Collect` is fatal but the sink has
already received the `latest_block_height` and `latest_block_time_diff`
samples. -/
theorem network_failure_after_two_samples :
    WellFormedStatus (some (statusDoc "500" "2024-01-01T00:00:00Z"))
        "abc123" "testnet-1" (F64.ofInt 500) 1704067200000000000
      ∧ scenarioNetDown.get "http://node/status"
        = .body 200 (some (statusDoc "500" "2024-01-01T00:00:00Z"))
      ∧ scenarioNetDown.get "http://node/net_info" = .doErr
      ∧ (Collect scenarioNetDown freshState).2 = .fatal
      ∧ (Collect scenarioNetDown freshState).1.metricCh
        = [heightSample "abc123" "testnet-1" (F64.ofInt 500),
           timeDiffSample "abc123" "testnet-1" (F64.ofInt 100)] :=
  ⟨scenario_status_wellFormed, rfl, rfl, by decide, by decide⟩

/-- C5, amended. For a well-formed status document, if the network-info fetch
or extraction then fails, `Collect` does not return (the process is
terminated) and produces no `number_of_peers` sample; the sink has received
exactly the two samples of the status document, `latest_block_height` then
`latest_block_time_diff`, which were sent before the network-info request. -/
theorem network_failure_keeps_status_samples (w : World) (s : State) (c1 : Nat)
    (sdoc : Option JSON) (nodeId chainId : String) (height : F64) (time : Int)
    (hs : w.get (s.exporter.gaiadEndpoint ++ statusApi) = .body c1 sdoc)
    (hw : WellFormedStatus sdoc nodeId chainId height time)
    (hf : NetworkFails (w.get (s.exporter.gaiadEndpoint ++ networkApi))) :
    (Collect w s).2 ≠ .returned
      ∧ (Collect w s).1.metricCh = s.metricCh ++
        [heightSample nodeId chainId height,
         timeDiffSample nodeId chainId (Seconds (Sub w.now time))] := by
  rw [collect_eq, hs]
  simp only [statusOf_wellFormed hw, network_eq, State.send, State.requested]
  cases hg : w.get (s.exporter.gaiadEndpoint ++ networkApi) with
  | newRequestErr => simp
  | doErr => simp
  | readErr c => simp
  | body c2 ndoc =>
    rw [hg] at hf
    simp only [NetworkFails] at hf
    rcases hf with h | ⟨p, e, h, h'⟩
    · simp [h, networkOf, orPanic, bind, Except.bind]
    · simp [h, h', networkOf, orPanic, bind, Except.bind, throw, throwThe,
        MonadExceptOf.throw]

/-- Witness of C5 amended: the scenario with the network-info request failing. -/
theorem network_failure_keeps_status_samples_witness :
    scenarioNetDown.get (freshState.exporter.gaiadEndpoint ++ statusApi)
        = .body 200 (some (statusDoc "500" "2024-01-01T00:00:00Z"))
      ∧ NetworkFails (scenarioNetDown.get (freshState.exporter.gaiadEndpoint ++ networkApi))
      ∧ (Collect scenarioNetDown freshState).2 ≠ .returned
      ∧ (Collect scenarioNetDown freshState).1.metricCh = freshState.metricCh ++
        [heightSample "abc123" "testnet-1" (F64.ofInt 500),
         timeDiffSample "abc123" "testnet-1"
           (Seconds (Sub scenarioNetDown.now 1704067200000000000))] :=
  ⟨rfl, trivial,
    network_failure_keeps_status_samples scenarioNetDown freshState 200 _ _ _ _ _
      rfl scenario_status_wellFormed trivial⟩

theorem networkUrl_ne_statusUrl (endpoint : String) :
    endpoint ++ networkApi ≠ endpoint ++ statusApi := by
  intro h
  have h2 := congrArg String.data h
  simp only [String.data_append, List.append_cancel_left_eq] at h2
  exact absurd h2 (by decide)

/-- C6 fails as stated: the height `NaN` contains no digit and is the name of
no number, yet `strconv.ParseFloat` accepts it; `Collect` returns normally,
has requested the network-info endpoint, and has sent the three samples, the
`latest_block_height` sample with the value NaN. -/
theorem nan_height_still_yields_samples :
    scenarioNaNHeight.get "http://node/status"
        = .body 200 (some (statusDoc "NaN" "2024-01-01T00:00:00Z"))
      ∧ (∀ c ∈ "NaN".data, isDigit c = false)
      ∧ ParseFloat "NaN" = .ok F64.nan
      ∧ F64.nan.toRat = none
      ∧ (Collect scenarioNaNHeight freshState).2 = .returned
      ∧ (Collect scenarioNaNHeight freshState).1.requests
        = ["http://node/status", "http://node/net_info"]
      ∧ (Collect scenarioNaNHeight freshState).1.metricCh
        = [heightSample "abc123" "testnet-1" F64.nan,
           timeDiffSample "abc123" "testnet-1" (F64.ofInt 100),
           peersSample "abc123" "testnet-1" (F64.ofInt 3)] :=
  ⟨rfl, by decide, by decide, by decide, by decide, by decide, by decide⟩

/-- C6, amended. For a status document in which the node and chain identity
are strings and `latest_block_height` is a string that `ParseFloat` rejects,
which every string without a decimal digit is unless it is one of the special
names (an optionally signed `inf` or `infinity`, or `nan`, in any letter
case), `Collect` is fatal right after the status request: no sample has been
sent and the network-info endpoint has not been requested. -/
theorem bad_height_aborts_before_any_sample (w : World) (s : State) (c1 : Nat)
    (sdoc : Option JSON) (nodeId chainId h : String)
    (hs : w.get (s.exporter.gaiadEndpoint ++ statusApi) = .body c1 sdoc)
    (hi : stringAt sdoc pathId = some nodeId)
    (hc : stringAt sdoc pathNetwork = some chainId)
    (hh : stringAt sdoc pathHeight = some h)
    (he : (∃ e, ParseFloat h = .error e)
      ∨ ((∀ c ∈ h.data, isDigit c = false) ∧ special h.data = none)) :
    (Collect w s).2 = .fatal
      ∧ (Collect w s).1.metricCh = s.metricCh
      ∧ (Collect w s).1.requests = s.requests ++ [s.exporter.gaiadEndpoint ++ statusApi]
      ∧ s.exporter.gaiadEndpoint ++ networkApi ∉
        [s.exporter.gaiadEndpoint ++ statusApi] := by
  have he' : ∃ e, ParseFloat h = .error e := by
    rcases he with h1 | ⟨h1, h2⟩
    · exact h1
    · exact ⟨_, ParseFloat_no_digit h h1 h2⟩
  obtain ⟨e, he⟩ := he'
  rw [collect_eq, hs]
  simp [statusOf, hi, hc, hh, he, orPanic, bind, Except.bind, throw, throwThe,
    MonadExceptOf.throw, State.requested, networkUrl_ne_statusUrl]

/-- Witness of C6 amended: the scenario with the height `abc`, which
`ParseFloat` rejects and which has no digit. -/
theorem bad_height_aborts_before_any_sample_witness :
    scenarioBadHeight.get (freshState.exporter.gaiadEndpoint ++ statusApi)
        = .body 200 (some (statusDoc "abc" "2024-01-01T00:00:00Z"))
      ∧ ParseFloat "abc" = .error .badSyntax
      ∧ ((∀ c ∈ "abc".data, isDigit c = false) ∧ special "abc".data = none)
      ∧ (Collect scenarioBadHeight freshState).2 = .fatal
      ∧ (Collect scenarioBadHeight freshState).1.metricCh = freshState.metricCh
      ∧ (Collect scenarioBadHeight freshState).1.requests = freshState.requests ++
        [freshState.exporter.gaiadEndpoint ++ statusApi]
      ∧ freshState.exporter.gaiadEndpoint ++ networkApi ∉
        [freshState.exporter.gaiadEndpoint ++ statusApi] :=
  ⟨rfl, by decide, ⟨by decide, by decide⟩,
    bad_height_aborts_before_any_sample scenarioBadHeight freshState 200 _ "abc123"
      "testnet-1" "abc" rfl (by decide) (by decide) (by decide)
      (Or.inr ⟨by decide, by decide⟩)⟩

theorem statusOf_malformed (sId sNet sHeight sTime : Option String)
    (hbad : sId = none ∨ sNet = none ∨ sHeight = none ∨ sTime = none
      ∨ ∃ t, sTime = some t ∧ (parseRFC3339 t = none ∨ t.length < 19)) :
    ∃ o, statusOf sId sNet sHeight sTime = .error o ∧ o ≠ .returned := by
  unfold statusOf
  rcases sId with _ | a
  · exact ⟨.panicked, rfl, by decide⟩
  rcases sNet with _ | b
  · exact ⟨.panicked, rfl, by decide⟩
  rcases sHeight with _ | c
  · exact ⟨.panicked, rfl, by decide⟩
  simp only [orPanic, bind, Except.bind]
  cases hp : ParseFloat c with
  | error e => exact ⟨.fatal, rfl, by decide⟩
  | ok f =>
    rcases sTime with _ | d
    · exact ⟨.panicked, rfl, by decide⟩
    · rcases hbad with h | h | h | h | ⟨t, h, h'⟩
      · exact absurd h (by simp)
      · exact absurd h (by simp)
      · exact absurd h (by simp)
      · exact absurd h (by simp)
      · cases h
        have hnone : parseRFC3339 d = none := by
          rcases h' with h1 | h1
          · exact h1
          · cases hq : parseRFC3339 d with
            | none => rfl
            | some v =>
              have := parseRFC3339_length d v hq
              omega
        refine ⟨.fatal, ?_, by decide⟩
        simp [hnone, pure, Except.pure, throw, throwThe, MonadExceptOf.throw]

/-- C7 fails as stated: RFC 3339 requires a two-digit hour, so
`2024-01-01T1:00:00Z` is not RFC 3339, yet `time.Parse` with the RFC3339
layout accepts it as `2024-01-01T01:00:00Z`; `Collect` returns normally with
the three samples, the time difference being `-3500` seconds. -/
theorem one_digit_hour_still_yields_samples :
    scenarioShortHour.get "http://node/status"
        = .body 200 (some (statusDoc "500" "2024-01-01T1:00:00Z"))
      ∧ rfc3339Shape "2024-01-01T1:00:00Z" = false
      ∧ rfc3339Shape "2024-01-01T01:00:00Z" = true
      ∧ parseRFC3339 "2024-01-01T1:00:00Z" = some 1704070800000000000
      ∧ parseRFC3339 "2024-01-01T01:00:00Z" = some 1704070800000000000
      ∧ (Collect scenarioShortHour freshState).2 = .returned
      ∧ (Collect scenarioShortHour freshState).1.metricCh
        = [heightSample "abc123" "testnet-1" (F64.ofInt 500),
           timeDiffSample "abc123" "testnet-1" (F64.ofInt (-3500)),
           peersSample "abc123" "testnet-1" (F64.ofInt 3)] :=
  ⟨rfl, by decide, by decide, by decide, by decide, by decide, by decide⟩

/-- C7, amended. All four status fields are required: when the body of the
status response is not valid JSON, or one of the paths `result.node_info.id`,
`result.node_info.network`, `result.sync_info.latest_block_height`,
`result.sync_info.latest_block_time` does not lead to a string (a key is
missing, an intermediate value is no object, the leaf is no string), or the
time string is rejected by `time.Parse` with the RFC3339 layout, which every
string shorter than 19 characters is, `Collect` does not return and sends no
sample; only the status request has been made. -/
theorem malformed_status_aborts (w : World) (s : State) (c1 : Nat) (sdoc : Option JSON)
    (hs : w.get (s.exporter.gaiadEndpoint ++ statusApi) = .body c1 sdoc)
    (hbad : sdoc = none ∨ stringAt sdoc pathId = none ∨ stringAt sdoc pathNetwork = none
      ∨ stringAt sdoc pathHeight = none ∨ stringAt sdoc pathTime = none
      ∨ ∃ t, stringAt sdoc pathTime = some t ∧ (parseRFC3339 t = none ∨ t.length < 19)) :
    (Collect w s).2 ≠ .returned
      ∧ (Collect w s).1.metricCh = s.metricCh
      ∧ (Collect w s).1.requests = s.requests ++ [s.exporter.gaiadEndpoint ++ statusApi] := by
  have hbad' : stringAt sdoc pathId = none ∨ stringAt sdoc pathNetwork = none
      ∨ stringAt sdoc pathHeight = none ∨ stringAt sdoc pathTime = none
      ∨ ∃ t, stringAt sdoc pathTime = some t
        ∧ (parseRFC3339 t = none ∨ t.length < 19) := by
    rcases hbad with h | h
    · subst h; exact Or.inl rfl
    · exact h
  obtain ⟨o, ho, hne⟩ := statusOf_malformed _ _ _ _ hbad'
  rw [collect_eq, hs]
  simp only [ho]
  exact ⟨hne, rfl, rfl⟩

/-- Witness of C7 amended: a status body that is not valid JSON, and a status
document whose block time is the date `2024-01-01` alone. -/
theorem malformed_status_aborts_witness :
    (scenarioBadJSON.get (freshState.exporter.gaiadEndpoint ++ statusApi) = .body 200 none
      ∧ (Collect scenarioBadJSON freshState).2 ≠ .returned
      ∧ (Collect scenarioBadJSON freshState).1.metricCh = freshState.metricCh
      ∧ (Collect scenarioBadJSON freshState).1.requests = freshState.requests ++
        [freshState.exporter.gaiadEndpoint ++ statusApi])
    ∧ (scenarioDateOnly.get (freshState.exporter.gaiadEndpoint ++ statusApi)
        = .body 200 (some (statusDoc "500" "2024-01-01"))
      ∧ parseRFC3339 "2024-01-01" = none
      ∧ "2024-01-01".length < 19
      ∧ (Collect scenarioDateOnly freshState).2 ≠ .returned
      ∧ (Collect scenarioDateOnly freshState).1.metricCh = freshState.metricCh
      ∧ (Collect scenarioDateOnly freshState).1.requests = freshState.requests ++
        [freshState.exporter.gaiadEndpoint ++ statusApi]) :=
  ⟨⟨rfl, malformed_status_aborts scenarioBadJSON freshState 200 none rfl (Or.inl rfl)⟩,
    ⟨rfl, by decide, by decide,
      malformed_status_aborts scenarioDateOnly freshState 200 _ rfl
        (Or.inr (Or.inr (Or.inr (Or.inr (Or.inr
          ⟨"2024-01-01", by decide, Or.inr (by decide)⟩)))))⟩⟩

/-- C8 fails as stated: both upstream responses carry HTTP status 500 with
well-formed bodies, and `Collect` returns normally with the three samples. -/
theorem http_500_still_yields_samples :
    scenario500.get "http://node/status"
        = .body 500 (some (statusDoc "500" "2024-01-01T00:00:00Z"))
      ∧ scenario500.get "http://node/net_info" = .body 500 (some (networkDoc "3"))
      ∧ ¬ (200 ≤ 500 ∧ 500 ≤ 299)
      ∧ (Collect scenario500 freshState).2 = .returned
      ∧ (Collect scenario500 freshState).1.metricCh
        = [heightSample "abc123" "testnet-1" (F64.ofInt 500),
           timeDiffSample "abc123" "testnet-1" (F64.ofInt 100),
           peersSample "abc123" "testnet-1" (F64.ofInt 3)] :=
  ⟨rfl, rfl, by decide, by decide, by decide⟩

/-- C8, amended. The HTTP status code of an upstream response is never
examined: two upstreams whose replies differ only in their status codes give
the same result, so a non-2xx response is treated exactly like a 2xx response
with the same body (fatal only if the body is not a well-formed document). -/
theorem status_code_is_ignored (w1 w2 : World) (s : State)
    (hget : ∀ url, (w1.get url).content = (w2.get url).content)
    (hnow : w1.now = w2.now) : Collect w1 s = Collect w2 s := by
  rw [collect_eq, collect_eq]
  have h1 := hget (s.exporter.gaiadEndpoint ++ statusApi)
  have key : ∀ (a b : String) (s' : State),
      updateNetworkGaiadMetricsFromApi w1 a b s' =
        updateNetworkGaiadMetricsFromApi w2 a b s' := by
    intro a b s'
    rw [network_eq, network_eq]
    have h2 := hget (s'.exporter.gaiadEndpoint ++ networkApi)
    cases hx : w1.get (s'.exporter.gaiadEndpoint ++ networkApi) <;>
      cases hy : w2.get (s'.exporter.gaiadEndpoint ++ networkApi) <;>
      rw [hx, hy] at h2
    all_goals simp [Reply.content] at h2
    all_goals first | rfl | (subst h2; rfl)
  cases hx : w1.get (s.exporter.gaiadEndpoint ++ statusApi) <;>
    cases hy : w2.get (s.exporter.gaiadEndpoint ++ statusApi) <;>
    rw [hx, hy] at h1
  all_goals simp [Reply.content] at h1
  all_goals first | rfl | (subst h1; simp only [hnow, key])

/-- Witness of C8 amended: the scenario answered with 200 and with 500. -/
theorem status_code_is_ignored_witness :
    (∀ url, (scenario.get url).content = (scenario500.get url).content)
      ∧ scenario.now = scenario500.now
      ∧ Collect scenario freshState = Collect scenario500 freshState :=
  have h : ∀ url, (scenario.get url).content = (scenario500.get url).content := by
    intro url
    simp only [scenario, scenario500, upstream]
    split_ifs <;> rfl
  ⟨h, rfl, status_code_is_ignored scenario scenario500 freshState h rfl⟩

/-- C9. `Describe` sends exactly the three fixed descriptors
`latest_block_height`, `latest_block_time_diff`, `number_of_peers` (with the
namespace `gaiad` in the full name), in that order, each with the variable
labels `node_id`, `chain_id` in that order and no constant labels; it sends no
sample, makes no request, and does not depend on the endpoint. -/
theorem describe_emits_three_descriptors (s : State) :
    Describe s = ({ s with descCh := s.descCh ++
        [⟨"gaiad_latest_block_height", "Current block number.",
           ["node_id", "chain_id"], []⟩,
         ⟨"gaiad_latest_block_time_diff",
           "Difference between current time and the latest block time.",
           ["node_id", "chain_id"], []⟩,
         ⟨"gaiad_number_of_peers", "Number of peers.", ["node_id", "chain_id"], []⟩] },
        Outcome.returned)
      ∧ (Describe s).1.metricCh = s.metricCh
      ∧ (Describe s).1.requests = s.requests
      ∧ (Describe s).1.exporter = s.exporter := by
  refine ⟨?_, rfl, rfl, rfl⟩
  simp [Describe, latestBlockHeight, latestBlockTimeDiff, peersNumber, BuildFQName, namespace_]

/-- C10. `Collect` is a stateless function of the extraction paths: two
scrapes at the same current time whose status documents agree at the four
status paths and whose network documents agree at `result.n_peers` hand the
same samples to the sink and end the same way, whatever else the documents
contain, whatever the endpoints and status codes are and whatever was
requested or sent before; and `Collect` leaves the `Exporter` unchanged. -/
theorem collect_depends_only_on_paths (w1 w2 : World) (s1 s2 : State)
    (c1 c2 c3 c4 : Nat) (d1 d2 n1 n2 : Option JSON)
    (hnow : w1.now = w2.now)
    (hs1 : w1.get (s1.exporter.gaiadEndpoint ++ statusApi) = .body c1 d1)
    (hs2 : w2.get (s2.exporter.gaiadEndpoint ++ statusApi) = .body c2 d2)
    (hn1 : w1.get (s1.exporter.gaiadEndpoint ++ networkApi) = .body c3 n1)
    (hn2 : w2.get (s2.exporter.gaiadEndpoint ++ networkApi) = .body c4 n2)
    (hid : valueAt d1 pathId = valueAt d2 pathId)
    (hnet : valueAt d1 pathNetwork = valueAt d2 pathNetwork)
    (hheight : valueAt d1 pathHeight = valueAt d2 pathHeight)
    (htime : valueAt d1 pathTime = valueAt d2 pathTime)
    (hpeers : valueAt n1 pathPeers = valueAt n2 pathPeers) :
    ∃ samples : List Metric,
      (Collect w1 s1).1.metricCh = s1.metricCh ++ samples
      ∧ (Collect w2 s2).1.metricCh = s2.metricCh ++ samples
      ∧ (Collect w1 s1).2 = (Collect w2 s2).2
      ∧ (Collect w1 s1).1.exporter = s1.exporter
      ∧ (Collect w2 s2).1.exporter = s2.exporter := by
  obtain ⟨a1, a2⟩ := collect_bodies w1 s1 c1 c3 d1 n1 hs1 hn1
  obtain ⟨b1, b2⟩ := collect_bodies w2 s2 c2 c4 d2 n2 hs2 hn2
  simp only [stringAt, hid, hnet, hheight, htime, hpeers, hnow] at a1 a2
  simp only [stringAt] at b1 b2
  exact ⟨_, a1, b1, a2.trans b2.symm, collect_exporter w1 s1, collect_exporter w2 s2⟩

/-- Witness of C10: the scenario of the specification against documents with
other content around the same values, after an earlier scrape. -/
theorem collect_depends_only_on_paths_witness :
    ∃ samples : List Metric,
      (Collect scenario freshState).1.metricCh = freshState.metricCh ++ samples
      ∧ (Collect scenarioNoisy (Collect scenarioNoisy freshState).1).1.metricCh
        = (Collect scenarioNoisy freshState).1.metricCh ++ samples
      ∧ (Collect scenario freshState).2
        = (Collect scenarioNoisy (Collect scenarioNoisy freshState).1).2
      ∧ (Collect scenario freshState).1.exporter = freshState.exporter
      ∧ (Collect scenarioNoisy (Collect scenarioNoisy freshState).1).1.exporter
        = (Collect scenarioNoisy freshState).1.exporter :=
  collect_depends_only_on_paths scenario scenarioNoisy freshState
    (Collect scenarioNoisy freshState).1 200 203 200 200
    (some (statusDoc "500" "2024-01-01T00:00:00Z")) (some statusDocNoisy)
    (some (networkDoc "3")) (some networkDocNoisy) rfl rfl
    (by rw [collect_exporter]; rfl) rfl (by rw [collect_exporter]; rfl)
    rfl rfl rfl rfl rfl

/-! ## Properties of the float64 operations -/

namespace F64

theorem ilog2Aux_spec (fuel n : Nat) (h1 : 1 ≤ n) (hf : n ≤ fuel) :
    2 ^ ilog2Aux fuel n ≤ n ∧ n < 2 ^ (ilog2Aux fuel n + 1) := by
  induction fuel generalizing n with
  | zero => omega
  | succ fuel ih =>
    unfold ilog2Aux
    by_cases h2 : n < 2
    · rw [if_pos h2]
      constructor <;> simp <;> omega
    · rw [if_neg h2]
      have := ih (n / 2) (by omega) (by omega)
      obtain ⟨l, u⟩ := this
      constructor
      · rw [pow_succ]; omega
      · rw [pow_succ]; omega

theorem ilog2_spec (n : Nat) (h1 : 1 ≤ n) : 2 ^ ilog2 n ≤ n ∧ n < 2 ^ (ilog2 n + 1) :=
  ilog2Aux_spec n n h1 le_rfl

theorem ilog2_lt (n k : Nat) (h1 : 1 ≤ n) (h : n < 2 ^ k) : ilog2 n < k := by
  by_contra hc
  have := (ilog2_spec n h1).1
  have : 2 ^ k ≤ 2 ^ ilog2 n := Nat.pow_le_pow_right (by norm_num) (by omega)
  omega

theorem pack_spec (neg : Bool) (k m : Nat) (hm : m ≤ 2 ^ 53)
    (hk : k = 0 ∨ 2 ^ 52 ≤ m) (hfin : k * 2 ^ 52 + m < 2047 * 2 ^ 52) :
    (pack neg k m).sign = neg ∧ (pack neg k m).expo < 2047
      ∧ 0 ≤ (pack neg k m).scale + 1074
      ∧ (pack neg k m).mant * 2 ^ ((pack neg k m).scale + 1074).toNat = m * 2 ^ k := by
  have hlt : (k * 2 ^ 52 + m) / 2 ^ 52 < 2047 := by omega
  have hp : pack neg k m = ⟨neg, (k * 2 ^ 52 + m) / 2 ^ 52, (k * 2 ^ 52 + m) % 2 ^ 52⟩ := by
    simp only [pack]
    rw [if_neg (by omega)]
  rw [hp]
  refine ⟨rfl, hlt, ?_⟩
  simp only [mant, scale]
  rcases Nat.lt_or_ge m (2 ^ 52) with h1 | h1
  · -- subnormal: `k = 0`
    have k0 : k = 0 := by omega
    subst k0
    have d1 : (0 * 2 ^ 52 + m) / 2 ^ 52 = 0 := by omega
    have d2 : (0 * 2 ^ 52 + m) % 2 ^ 52 = m := by omega
    rw [d1, d2]
    simp
  · rcases Nat.lt_or_ge m (2 ^ 53) with h2 | h2
    · have d1 : (k * 2 ^ 52 + m) / 2 ^ 52 = k + 1 := by omega
      have d2 : (k * 2 ^ 52 + m) % 2 ^ 52 = m - 2 ^ 52 := by omega
      rw [d1, d2, if_neg (by omega), if_neg (by omega)]
      have e1 : (((k + 1 : Nat) : Int) - 1075 + 1074).toNat = k := by omega
      rw [e1]
      constructor
      · omega
      · have e2 : 2 ^ 52 + (m - 2 ^ 52) = m := by omega
        rw [e2]
    · have hm2 : m = 2 ^ 53 := by omega
      subst hm2
      have d1 : (k * 2 ^ 52 + 2 ^ 53) / 2 ^ 52 = k + 2 := by omega
      have d2 : (k * 2 ^ 52 + 2 ^ 53) % 2 ^ 52 = 0 := by omega
      rw [d1, d2, if_neg (by omega), if_neg (by omega)]
      have e1 : (((k + 2 : Nat) : Int) - 1075 + 1074).toNat = k + 1 := by omega
      rw [e1]
      constructor
      · omega
      · rw [pow_succ]; ring

theorem roundNearestEven_near (n d : Nat) (hd : 0 < d) :
    2 * n ≤ 2 * (roundNearestEven n d * d) + d
      ∧ 2 * (roundNearestEven n d * d) ≤ 2 * n + d := by
  have hdm := Nat.div_add_mod n d
  have hr := Nat.mod_lt n hd
  have hq : d * (n / d) = n / d * d := Nat.mul_comm _ _
  simp only [roundNearestEven]
  split_ifs with h
  · rw [Nat.add_mul]; omega
  · omega

theorem roundNearestEven_ge (n d a : Nat) (hd : 0 < d) (h : a * d ≤ n) :
    a ≤ roundNearestEven n d := by
  have hq : a ≤ n / d := (Nat.le_div_iff_mul_le hd).2 h
  simp only [roundNearestEven]
  split_ifs <;> omega

theorem roundNearestEven_le (n d b : Nat) (hd : 0 < d) (h : n ≤ b * d) :
    roundNearestEven n d ≤ b := by
  have hdm := Nat.div_add_mod n d
  have hr := Nat.mod_lt n hd
  rcases Nat.lt_or_ge n (b * d) with h1 | h1
  · have hq : n / d < b := (Nat.div_lt_iff_lt_mul hd).2 h1
    simp only [roundNearestEven]
    split_ifs <;> omega
  · have e : n = b * d := Nat.le_antisymm h h1
    subst e
    simp only [roundNearestEven, Nat.mul_mod_left, Nat.mul_div_cancel _ hd]
    rw [if_neg (by omega)]

theorem roundNearestEven_exact (n d : Nat) (hd : 0 < d) (h : d ∣ n) :
    roundNearestEven n d * d = n := by
  obtain ⟨c, rfl⟩ := h
  simp only [roundNearestEven, Nat.mul_mod_right, Nat.mul_div_cancel_left _ hd]
  rw [if_neg (by omega)]
  exact Nat.mul_comm _ _

theorem ilog2_one : ilog2 1 = 0 := rfl

theorem binExp_spec (num den : Nat) (hn : 0 < num) (hd : 0 < den) :
    (2 : ℚ) ^ binExp num den * den ≤ num ∧ (num : ℚ) < 2 ^ (binExp num den + 1) * den := by
  obtain ⟨a1, a2⟩ := ilog2_spec num hn
  obtain ⟨b1, b2⟩ := ilog2_spec den hd
  have a1q : (2 : ℚ) ^ (ilog2 num) ≤ num := by exact_mod_cast a1
  have a2q : (num : ℚ) < 2 ^ (ilog2 num + 1) := by exact_mod_cast a2
  have b1q : (2 : ℚ) ^ (ilog2 den) ≤ den := by exact_mod_cast b1
  have b2q : (den : ℚ) < 2 ^ (ilog2 den + 1) := by exact_mod_cast b2
  have pa : (0 : ℚ) < 2 ^ ilog2 num := by positivity
  have pb : (0 : ℚ) < 2 ^ ilog2 den := by positivity
  have two : (2 : ℚ) ≠ 0 := by norm_num
  simp only [binExp]
  split_ifs with h
  · have hq : (num : ℚ) * 2 ^ ilog2 den < den * 2 ^ ilog2 num := by exact_mod_cast h
    have e1 : (2 : ℚ) ^ ((ilog2 num : Int) - (ilog2 den : Int) - 1)
        = 2 ^ ilog2 num / (2 ^ ilog2 den * 2) := by
      rw [zpow_sub₀ two, zpow_sub₀ two]; simp [div_div]
    have e2 : (2 : ℚ) ^ ((ilog2 num : Int) - (ilog2 den : Int) - 1 + 1)
        = 2 ^ ilog2 num / 2 ^ ilog2 den := by
      rw [sub_add_cancel, zpow_sub₀ two]; simp
    rw [e1, e2]
    constructor
    · rw [div_mul_eq_mul_div, div_le_iff₀ (by positivity)]
      rw [pow_succ] at b2q
      nlinarith
    · rw [div_mul_eq_mul_div, lt_div_iff₀ pb]
      linarith
  · have hq : (den : ℚ) * 2 ^ ilog2 num ≤ num * 2 ^ ilog2 den := by
      exact_mod_cast Nat.le_of_not_lt h
    have e1 : (2 : ℚ) ^ ((ilog2 num : Int) - (ilog2 den : Int) - 0)
        = 2 ^ ilog2 num / 2 ^ ilog2 den := by
      rw [sub_zero, zpow_sub₀ two]; simp
    have e2 : (2 : ℚ) ^ ((ilog2 num : Int) - (ilog2 den : Int) - 0 + 1)
        = 2 ^ ilog2 num * 2 / 2 ^ ilog2 den := by
      rw [sub_zero, zpow_add₀ two, zpow_sub₀ two]; simp; ring
    rw [e1, e2]
    constructor
    · rw [div_mul_eq_mul_div, div_le_iff₀ pb]
      linarith
    · rw [div_mul_eq_mul_div, lt_div_iff₀ pb]
      rw [pow_succ] at a2q
      nlinarith

theorem toRat_of_finite (x : F64) (h : x.expo < 2047) :
    x.toRat = some ((x.sgn : ℚ) * (x.mant : ℚ) * (2 : ℚ) ^ x.scale) := by
  simp only [toRat]
  rw [if_neg (by omega)]

theorem sgn_cast (x : F64) : ((x.sgn : Int) : ℚ) = if x.sign then -1 else 1 := by
  simp only [sgn]
  split_ifs <;> simp

theorem scaled_eq (a m t k : Nat) (s c : Int) (h0 : 0 ≤ s + c) (ht : t = (s + c).toNat)
    (h : a * 2 ^ t = m * 2 ^ k) :
    (a : ℚ) * 2 ^ s = m * 2 ^ ((k : Int) - c) := by
  have two : (2 : ℚ) ≠ 0 := by norm_num
  have hs : s = (t : Int) - c := by omega
  have hq : (a : ℚ) * 2 ^ t = m * 2 ^ k := by exact_mod_cast h
  rw [hs, zpow_sub₀ two, zpow_sub₀ two, zpow_natCast, zpow_natCast, ← mul_div_assoc,
    ← mul_div_assoc, hq]

theorem pack_toRat (neg : Bool) (k m : Nat) (hm : m ≤ 2 ^ 53)
    (hk : k = 0 ∨ 2 ^ 52 ≤ m) (hfin : k * 2 ^ 52 + m < 2047 * 2 ^ 52) :
    (pack neg k m).toRat
      = some ((if neg then -1 else 1) * (m : ℚ) * 2 ^ ((k : Int) - 1074)) := by
  obtain ⟨hs, he, h0, hmk⟩ := pack_spec neg k m hm hk hfin
  rw [toRat_of_finite _ he, sgn_cast, hs, mul_assoc, mul_assoc,
    scaled_eq _ m _ k _ 1074 h0 rfl hmk]

theorem shift_split (ee : Int) :
    (2 : ℚ) ^ (52 - ee).toNat = 2 ^ (52 - ee) * 2 ^ (ee - 52).toNat := by
  have two : (2 : ℚ) ≠ 0 := by norm_num
  rcases le_total ee 52 with h | h
  · have e1 : (ee - 52).toNat = 0 := by omega
    have e2 : (52 - ee) = ((52 - ee).toNat : Int) := by omega
    rw [e1, pow_zero, mul_one]
    nth_rewrite 2 [e2]
    rw [zpow_natCast]
  · have e1 : (52 - ee).toNat = 0 := by omega
    have e2 : (52 - ee) = -((ee - 52).toNat : Int) := by omega
    rw [e1, pow_zero, e2, zpow_neg, zpow_natCast, inv_mul_cancel₀ (by positivity)]

theorem roundRat_eq_pack (neg : Bool) (num den : Nat) (hn : 0 < num) (hd : 0 < den) :
    roundRat neg num den
      = pack neg (max (binExp num den) (-1022) + 1022).toNat
          (roundNearestEven (num * 2 ^ (52 - max (binExp num den) (-1022)).toNat)
            (den * 2 ^ (max (binExp num den) (-1022) - 52).toNat)) := by
  simp only [roundRat]
  rw [if_neg (by omega)]

theorem roundRat_spec (neg : Bool) (num den : Nat) (hn : 0 < num) (hd : 0 < den)
    (he : binExp num den ≤ 1022) :
    ∃ m : Nat,
      (roundRat neg num den).toRat
          = some ((if neg then -1 else 1)
              * ((m : ℚ) * 2 ^ (max (binExp num den) (-1022) - 52)))
      ∧ (roundRat neg num den).sign = neg
      ∧ (roundRat neg num den).expo < 2047
      ∧ (-1022 ≤ binExp num den → 2 ^ 52 ≤ m)
      ∧ |(m : ℚ) * 2 ^ (max (binExp num den) (-1022) - 52) - num / den|
          ≤ 2 ^ (max (binExp num den) (-1022) - 52) / 2
      ∧ (den * 2 ^ (max (binExp num den) (-1022) - 52).toNat
            ∣ num * 2 ^ (52 - max (binExp num den) (-1022)).toNat →
          (m : ℚ) * 2 ^ (max (binExp num den) (-1022) - 52) = num / den) := by
  obtain ⟨lo, hi⟩ := binExp_spec num den hn hd
  rw [roundRat_eq_pack neg num den hn hd]
  generalize binExp num den = e at *
  have two : (2 : ℚ) ≠ 0 := by norm_num
  have hee : e ≤ max e (-1022) := le_max_left _ _
  have hee2 : -1022 ≤ max e (-1022) := le_max_right _ _
  have hee3 : max e (-1022) ≤ 1022 := max_le he (by norm_num)
  have hee4 : -1022 ≤ e → max e (-1022) = e := fun h => max_eq_left h
  have hee5 : e < -1022 → max e (-1022) = -1022 := fun h => max_eq_right (le_of_lt h)
  generalize max e (-1022) = ee at *
  have hsplit := shift_split ee
  have hPW : (2 : ℚ) ^ (52 - ee) * 2 ^ (ee - 52) = 1 := by
    rw [← zpow_add₀ two]
    have : 52 - ee + (ee - 52) = 0 := by omega
    rw [this, zpow_zero]
  generalize hp : (52 - ee).toNat = p at *
  generalize hq : (ee - 52).toNat = q at *
  have hD : 0 < den * 2 ^ q := by positivity
  have denq : (0 : ℚ) < den := by exact_mod_cast hd
  have q2 : (0 : ℚ) < 2 ^ q := by positivity
  have z2 : (0 : ℚ) < 2 ^ (52 - ee) := by positivity
  have w2 : (0 : ℚ) < 2 ^ (ee - 52) := by positivity
  have hDq : (0 : ℚ) < den * 2 ^ q := by positivity
  -- the rounded significand is at most `2 ^ 53`
  have hm : roundNearestEven (num * 2 ^ p) (den * 2 ^ q) ≤ 2 ^ 53 := by
    apply roundNearestEven_le _ _ _ hD
    have h1 : (num : ℚ) * 2 ^ p ≤ 2 ^ 53 * (den * 2 ^ q) := by
      have h2 : (2 : ℚ) ^ (e + 1) ≤ 2 ^ (ee + 1) :=
        zpow_le_zpow_right₀ (by norm_num) (by omega)
      have h3 : (2 : ℚ) ^ (ee + 1) * 2 ^ (52 - ee) = 2 ^ 53 := by
        rw [← zpow_add₀ two]
        have : ee + 1 + (52 - ee) = ((53 : Nat) : Int) := by omega
        rw [this, zpow_natCast]
      rw [hsplit, ← h3]
      have h4 : (num : ℚ) ≤ 2 ^ (ee + 1) * den :=
        le_trans (le_of_lt hi) (mul_le_mul_of_nonneg_right h2 (le_of_lt denq))
      calc (num : ℚ) * (2 ^ (52 - ee) * 2 ^ q)
          ≤ (2 ^ (ee + 1) * den) * (2 ^ (52 - ee) * 2 ^ q) :=
            mul_le_mul_of_nonneg_right h4 (by positivity)
        _ = 2 ^ (ee + 1) * 2 ^ (52 - ee) * (den * 2 ^ q) := by ring
    exact_mod_cast h1
  -- in the normal range it is at least `2 ^ 52`
  have hlow : -1022 ≤ e → 2 ^ 52 ≤ roundNearestEven (num * 2 ^ p) (den * 2 ^ q) := by
    intro h
    apply roundNearestEven_ge _ _ _ hD
    have hE := hee4 h
    subst hE
    have h1 : (2 : ℚ) ^ 52 * (den * 2 ^ q) ≤ num * 2 ^ p := by
      have h3 : (2 : ℚ) ^ ee * 2 ^ (52 - ee) = 2 ^ 52 := by
        rw [← zpow_add₀ two]
        have : ee + (52 - ee) = ((52 : Nat) : Int) := by omega
        rw [this, zpow_natCast]
      rw [hsplit, ← h3]
      calc (2 : ℚ) ^ ee * 2 ^ (52 - ee) * (den * 2 ^ q)
          = (2 ^ ee * den) * (2 ^ (52 - ee) * 2 ^ q) := by ring
        _ ≤ num * (2 ^ (52 - ee) * 2 ^ q) := mul_le_mul_of_nonneg_right lo (by positivity)
    exact_mod_cast h1
  -- the exact quotient in units of the last place
  have hR : (num : ℚ) / den
      = ((num * 2 ^ p : Nat) : ℚ) / ((den * 2 ^ q : Nat) : ℚ) * 2 ^ (ee - 52) := by
    push_cast
    rw [hsplit]
    have : (num : ℚ) * (2 ^ (52 - ee) * 2 ^ q) / (den * 2 ^ q) * 2 ^ (ee - 52)
        = num / den * (2 ^ (52 - ee) * 2 ^ (ee - 52)) := by
      field_simp
      ring
    rw [this, hPW, mul_one]
  have hnear := roundNearestEven_near (num * 2 ^ p) (den * 2 ^ q) hD
  have hexact := roundNearestEven_exact (num * 2 ^ p) (den * 2 ^ q) hD
  generalize roundNearestEven (num * 2 ^ p) (den * 2 ^ q) = m at *
  have hk : (ee + 1022).toNat = 0 ∨ 2 ^ 52 ≤ m := by
    rcases lt_or_le e (-1022) with h | h
    · left; have := hee5 h; omega
    · right; exact hlow h
  have hfin : (ee + 1022).toNat * 2 ^ 52 + m < 2047 * 2 ^ 52 := by
    have : (ee + 1022).toNat ≤ 2044 := by omega
    omega
  obtain ⟨hs, hx, -, -⟩ := pack_spec neg _ m hm hk hfin
  refine ⟨m, ?_, hs, hx, hlow, ?_, ?_⟩
  · rw [pack_toRat neg _ m hm hk hfin]
    have : (((ee + 1022).toNat : Int) - 1074) = ee - 52 := by omega
    rw [this, mul_assoc]
  · generalize hN : ((num * 2 ^ p : Nat) : ℚ) = N at hR
    generalize hDD : ((den * 2 ^ q : Nat) : ℚ) = D at hR
    have hDpos : 0 < D := by rw [← hDD]; exact_mod_cast hD
    have n1 : 2 * N ≤ 2 * (m * D) + D := by
      rw [← hN, ← hDD]; exact_mod_cast hnear.1
    have n2 : 2 * (m * D) ≤ 2 * N + D := by
      rw [← hN, ← hDD]; exact_mod_cast hnear.2
    have hND : N / D * D = N := div_mul_cancel₀ N (ne_of_gt hDpos)
    have a1 : |(m : ℚ) - N / D| ≤ 1 / 2 := by
      rw [abs_le]
      constructor
      · apply le_of_mul_le_mul_right _ hDpos
        rw [sub_mul, hND]; linarith
      · apply le_of_mul_le_mul_right _ hDpos
        rw [sub_mul, hND]; linarith
    rw [hR, ← sub_mul, abs_mul, abs_of_pos w2]
    calc |(m : ℚ) - N / D| * 2 ^ (ee - 52) ≤ 1 / 2 * 2 ^ (ee - 52) :=
          mul_le_mul_of_nonneg_right a1 (le_of_lt w2)
      _ = 2 ^ (ee - 52) / 2 := by ring
  · intro hdvd
    have h1 : ((m * (den * 2 ^ q) : Nat) : ℚ) = ((num * 2 ^ p : Nat) : ℚ) := by
      rw [hexact hdvd]
    rw [hR, ← h1]
    push_cast
    field_simp

theorem binExp_ge (num den : Nat) (hn : 0 < num) (hd : 0 < den) (a : Int)
    (h : (2 : ℚ) ^ a * den ≤ num) : a ≤ binExp num den := by
  obtain ⟨-, hi⟩ := binExp_spec num den hn hd
  by_contra hc
  have h1 : (2 : ℚ) ^ (binExp num den + 1) ≤ 2 ^ a :=
    zpow_le_zpow_right₀ (by norm_num) (by omega)
  have denq : (0 : ℚ) < den := by exact_mod_cast hd
  have := mul_le_mul_of_nonneg_right h1 (le_of_lt denq)
  linarith

theorem binExp_lt (num den : Nat) (hn : 0 < num) (hd : 0 < den) (b : Int)
    (h : (num : ℚ) < 2 ^ b * den) : binExp num den < b := by
  obtain ⟨lo, -⟩ := binExp_spec num den hn hd
  by_contra hc
  have h1 : (2 : ℚ) ^ b ≤ 2 ^ binExp num den :=
    zpow_le_zpow_right₀ (by norm_num) (by omega)
  have denq : (0 : ℚ) < den := by exact_mod_cast hd
  have := mul_le_mul_of_nonneg_right h1 (le_of_lt denq)
  linarith

theorem toRat_some (x : F64) (v : ℚ) (h : x.toRat = some v) :
    x.expo < 2047 ∧ v = (x.sgn : ℚ) * (x.mant : ℚ) * (2 : ℚ) ^ x.scale := by
  simp only [toRat] at h
  split_ifs at h with hx
  simp only [Option.some.injEq] at h
  exact ⟨by omega, h.symm⟩

theorem mant_ne_zero (x : F64) (v : ℚ) (h : x.toRat = some v) (hv : v ≠ 0) : x.mant ≠ 0 := by
  obtain ⟨-, e⟩ := toRat_some x v h
  intro h0
  rw [h0] at e
  simp at e
  exact hv e

theorem zero_toRat (neg : Bool) : (zero neg).toRat = some 0 := by
  rw [toRat_of_finite _ (by simp [zero])]
  simp [zero, mant]

/-- Rounding a ratio in the normal range: the result is finite, has the given
sign, and its magnitude is within half a unit in the last place of the ratio. -/
theorem roundRat_approx (neg : Bool) (num den : Nat) (hn : 0 < num) (hd : 0 < den)
    (lo : (2 : ℚ) ^ (-1022 : Int) * den ≤ num) (hi : (num : ℚ) < 2 ^ (1023 : Int) * den) :
    ∃ v : ℚ, (roundRat neg num den).toRat = some ((if neg then -1 else 1) * v)
      ∧ 0 < v ∧ |v - num / den| ≤ (num / den) / 2 ^ 53 := by
  have e1 := binExp_ge num den hn hd _ lo
  have e2 := binExp_lt num den hn hd _ hi
  obtain ⟨blo, -⟩ := binExp_spec num den hn hd
  obtain ⟨m, h1, -, -, h4, h5, -⟩ := roundRat_spec neg num den hn hd (by omega)
  rw [max_eq_left e1] at h1 h5
  have hm := h4 e1
  have denq : (0 : ℚ) < den := by exact_mod_cast hd
  have two : (2 : ℚ) ≠ 0 := by norm_num
  refine ⟨_, h1, ?_, le_trans h5 ?_⟩
  · have : (0 : ℚ) < m := by
      have : 0 < m := lt_of_lt_of_le (by positivity) hm
      exact_mod_cast this
    positivity
  · have h6 : (2 : ℚ) ^ (binExp num den - 52) / 2 = 2 ^ binExp num den / 2 ^ 53 := by
      rw [zpow_sub₀ two, div_div]
      congr 1
      norm_num
    rw [h6]
    apply div_le_div_of_nonneg_right _ (by positivity)
    rw [le_div_iff₀ denq]
    exact blo

/-- Rounding an exactly representable ratio returns its value. -/
theorem roundRat_nat (neg : Bool) (n : Nat) (h1 : 0 < n) (h2 : n ≤ 2 ^ 53) :
    (roundRat neg n 1).toRat = some ((if neg then -1 else 1) * (n : ℚ)) := by
  have lo : 0 ≤ binExp n 1 := by
    apply binExp_ge n 1 h1 Nat.one_pos
    have : (1 : ℚ) ≤ n := by exact_mod_cast h1
    simpa using this
  have hi : binExp n 1 < 54 := by
    apply binExp_lt n 1 h1 Nat.one_pos
    have a : (n : ℚ) ≤ 2 ^ 53 := by exact_mod_cast h2
    have b : (2 : ℚ) ^ (54 : Int) = 2 ^ 53 * 2 := by
      have : (54 : Int) = ((53 + 1 : Nat) : Int) := by norm_num
      rw [this, zpow_natCast, pow_succ]
    rw [b]
    push_cast
    have c : (0 : ℚ) < 2 ^ 53 := by positivity
    linarith
  obtain ⟨blo, -⟩ := binExp_spec n 1 h1 Nat.one_pos
  obtain ⟨m, e1, -, -, -, -, e6⟩ := roundRat_spec neg n 1 h1 Nat.one_pos (by omega)
  rw [max_eq_left (by omega)] at e1 e6
  rw [e1]
  have hdvd : 1 * 2 ^ (binExp n 1 - 52).toNat ∣ n * 2 ^ (52 - binExp n 1).toNat := by
    rcases le_or_lt (binExp n 1) 52 with h | h
    · have : (binExp n 1 - 52).toNat = 0 := by omega
      rw [this]
      simp
    · have e53 : binExp n 1 = ((53 : Nat) : Int) := by omega
      rw [e53, zpow_natCast] at blo
      have : 2 ^ 53 ≤ n := by
        have : (2 : ℚ) ^ 53 ≤ n := by simpa using blo
        exact_mod_cast this
      have hn : n = 2 ^ 53 := Nat.le_antisymm h2 this
      have q1 : (binExp n 1 - 52).toNat = 1 := by omega
      have q2 : (52 - binExp n 1).toNat = 0 := by omega
      rw [q1, q2, hn]
      exact ⟨2 ^ 52, by norm_num⟩
  rw [e6 hdvd]
  simp

theorem ofInt_toRat (i : Int) (h : i.natAbs ≤ 2 ^ 53) : (ofInt i).toRat = some (i : ℚ) := by
  simp only [ofInt]
  rcases Nat.eq_zero_or_pos i.natAbs with h0 | h0
  · have : i = 0 := Int.natAbs_eq_zero.1 h0
    subst this
    exact zero_toRat _
  · rw [roundRat_nat _ _ h0 h]
    congr 1
    rcases lt_or_le i 0 with hneg | hpos
    · rw [decide_eq_true hneg, if_pos rfl, Nat.cast_natAbs, abs_of_neg hneg]
      push_cast
      ring
    · rw [decide_eq_false (not_lt.2 hpos), Nat.cast_natAbs, abs_of_nonneg hpos]
      simp

end F64

/-! ## `strconv.ParseFloat` on decimal integers -/

theorem isDigit_cases (c : Char) (h : isDigit c = true) :
    c = '0' ∨ c = '1' ∨ c = '2' ∨ c = '3' ∨ c = '4' ∨ c = '5' ∨ c = '6' ∨ c = '7'
      ∨ c = '8' ∨ c = '9' := by
  simp only [isDigit, decide_eq_true_eq] at h
  obtain ⟨h1, h2⟩ := h
  have e : c = Char.ofNat c.toNat := (Char.ofNat_toNat c).symm
  have h1' : 48 ≤ c.toNat := h1
  have h2' : c.toNat ≤ 57 := h2
  generalize c.toNat = n at *
  subst e
  interval_cases n <;> simp

theorem digit_facts (c : Char) (h : isDigit c = true) :
    digitVal false c = some (digit c) ∧ c ≠ '_' ∧ c ≠ '.' ∧ c ≠ '+' ∧ c ≠ '-'
      ∧ lowerChar c = c ∧ c ≠ 'x' ∧ c ≠ 'i' ∧ c ≠ 'n' := by
  rcases isDigit_cases c h with h | h | h | h | h | h | h | h | h | h <;> subst h <;> decide

theorem scanMant_digits (l : List Char) (hl : ∀ c ∈ l, isDigit c = true)
    (m f : Nat) (sd u : Bool) :
    scanMant false l ⟨m, f, false, sd, u⟩
      = (⟨l.foldl (fun n c => n * 10 + digit c) m, f, false, sd || !l.isEmpty, u⟩, []) := by
  induction l generalizing m sd with
  | nil => simp [scanMant]
  | cons c cs ih =>
    obtain ⟨h1, h2, h3, -⟩ := digit_facts c (hl c (List.mem_cons_self _ _))
    have hcs : ∀ c ∈ cs, isDigit c = true := fun d hd => hl d (List.mem_cons_of_mem _ hd)
    simp only [scanMant, if_neg h2, if_neg h3, h1]
    simp only [Bool.false_eq_true, if_false]
    rw [ih hcs]
    simp

theorem special_digits (c : Char) (cs : List Char) (hc : isDigit c = true) :
    special (c :: cs) = none := by
  obtain ⟨-, -, -, h4, h5, h6, -, h8, h9⟩ := digit_facts c hc
  simp [special, h4, h5, h6, h8, h9]

theorem readFloat_digits (c : Char) (cs : List Char) (hl : ∀ d ∈ c :: cs, isDigit d = true) :
    readFloat (c :: cs) = some ⟨false, false, digitsVal (c :: cs), 0, 0⟩ := by
  obtain ⟨-, -, -, h4, h5, -⟩ := digit_facts c (hl c (List.mem_cons_self _ _))
  have hsign : (match c :: cs with
      | '+' :: t => (false, t)
      | '-' :: t => (true, t)
      | _ => (false, c :: cs)) = (false, c :: cs) := by
    split
    · rename_i heq; simp at heq; exact absurd heq.1 h4
    · rename_i heq; simp at heq; exact absurd heq.1 h5
    · rfl
  have hhex : (match c :: cs with
      | '0' :: x :: y :: t => if lowerChar x = 'x' then (true, y :: t) else (false, c :: cs)
      | _ => (false, c :: cs)) = (false, c :: cs) := by
    split
    · rename_i x y t heq
      simp at heq
      have hx : isDigit x = true := hl x (by rw [heq.2]; simp)
      obtain ⟨-, -, -, -, -, h6, h7, -⟩ := digit_facts x hx
      rw [h6, if_neg h7]
    · rfl
  have hscan := scanMant_digits (c :: cs) hl 0 0 false false
  simp only [readFloat]
  rw [hsign]
  simp only [List.cons_ne_nil, if_false, reduceCtorEq]
  rw [hhex]
  simp only []
  rw [show ({} : Mantissa) = ⟨0, 0, false, false, false⟩ from rfl, hscan]
  simp [digitsVal]

theorem digitChar_digit (k : Nat) (h : k < 10) :
    isDigit (Nat.digitChar k) = true ∧ digit (Nat.digitChar k) = k := by
  interval_cases k <;> decide

theorem digitsVal_snoc (l : List Char) (d : Char) :
    digitsVal (l ++ [d]) = digitsVal l * 10 + digit d := by
  simp [digitsVal, List.foldl_append]

theorem toDigitsCore_spec (fuel n : Nat) (ds : List Char) (h : n < fuel) :
    ∃ l : List Char, Nat.toDigitsCore 10 fuel n ds = l ++ ds ∧ l ≠ []
      ∧ (∀ c ∈ l, isDigit c = true) ∧ digitsVal l = n := by
  induction fuel generalizing n ds with
  | zero => omega
  | succ fuel ih =>
    obtain ⟨d1, d2⟩ := digitChar_digit (n % 10) (Nat.mod_lt _ (by norm_num))
    simp only [Nat.toDigitsCore]
    split_ifs with h0
    · refine ⟨[Nat.digitChar (n % 10)], rfl, by simp, ?_, ?_⟩
      · intro c hc
        rw [List.mem_singleton] at hc
        rw [hc]; exact d1
      · simp only [digitsVal, List.foldl_cons, List.foldl_nil, d2]
        omega
    · obtain ⟨l, e1, -, e3, e4⟩ := ih (n / 10) (Nat.digitChar (n % 10) :: ds) (by omega)
      refine ⟨l ++ [Nat.digitChar (n % 10)], ?_, by simp, ?_, ?_⟩
      · rw [e1]; simp
      · intro c hc
        rw [List.mem_append, List.mem_singleton] at hc
        rcases hc with hc | hc
        · exact e3 c hc
        · rw [hc]; exact d1
      · rw [digitsVal_snoc, e4, d2]
        omega

/-- The decimal encoding `Nat.repr h` is a non-empty run of ASCII digits whose
value is `h`. -/
theorem repr_digits (h : Nat) :
    ∃ c cs, (Nat.repr h).data = c :: cs ∧ (∀ d ∈ c :: cs, isDigit d = true)
      ∧ digitsVal (c :: cs) = h := by
  obtain ⟨l, e1, e2, e3, e4⟩ := toDigitsCore_spec (h + 1) h [] (Nat.lt_succ_self h)
  rw [List.append_nil] at e1
  have hd : (Nat.repr h).data = l := by
    simp only [Nat.repr, Nat.toDigits, e1, List.asString]
  cases l with
  | nil => exact absurd rfl e2
  | cons c cs => exact ⟨c, cs, hd, e3, e4⟩

/-- Parsing a run of decimal digits gives the float nearest to its value. -/
theorem ParseFloat_digits (s : String) (c : Char) (cs : List Char) (hs : s.data = c :: cs)
    (hl : ∀ d ∈ c :: cs, isDigit d = true) (hv : digitsVal (c :: cs) ≤ 2 ^ 53) :
    ParseFloat s = .ok (F64.ofInt (digitsVal (c :: cs) : Nat)) := by
  have hof : F64.ofInt ((digitsVal (c :: cs) : Nat) : Int)
      = F64.roundRat false (digitsVal (c :: cs)) 1 := by
    have h0 : ¬ ((digitsVal (c :: cs) : Nat) : Int) < 0 := not_lt.2 (Int.natCast_nonneg _)
    simp only [F64.ofInt, Int.natAbs_ofNat, decide_eq_false h0]
  have hfin : (F64.ofInt ((digitsVal (c :: cs) : Nat) : Int)).expo < 2047 :=
    (F64.toRat_some _ _ (F64.ofInt_toRat _ (by simpa using hv))).1
  simp only [ParseFloat, hs, special_digits c cs (hl c (List.mem_cons_self _ _)),
    readFloat_digits c cs hl, Literal.toF64]
  simp only [Bool.false_eq_true, if_false, Nat.cast_zero, sub_zero, Int.toNat_zero, pow_zero,
    mul_one, neg_zero]
  rw [← hof, if_neg (by omega)]

/-- Parsing the decimal encoding of `h ≤ 2 ^ 53` gives `float64(h)`. -/
theorem ParseFloat_repr (h : Nat) (hh : h ≤ 2 ^ 53) :
    ParseFloat (Nat.repr h) = .ok (F64.ofInt h) := by
  obtain ⟨c, cs, e1, e2, e3⟩ := repr_digits h
  have := ParseFloat_digits (Nat.repr h) c cs e1 e2 (by rw [e3]; exact hh)
  rw [e3] at this
  exact this


/-! ## Rounding error of float division and addition -/

namespace F64

theorem pow_toNat_split (k : Int) : (2 : ℚ) ^ k.toNat = 2 ^ k * 2 ^ (-k).toNat := by
  have two : (2 : ℚ) ≠ 0 := by norm_num
  rcases le_total 0 k with h | h
  · have e1 : (-k).toNat = 0 := by omega
    have e2 : k = (k.toNat : Int) := by omega
    rw [e1, pow_zero, mul_one]
    nth_rewrite 2 [e2]
    rw [zpow_natCast]
  · have e1 : k.toNat = 0 := by omega
    have e2 : k = -((-k).toNat : Int) := by omega
    rw [e1, pow_zero]
    nth_rewrite 1 [e2]
    rw [zpow_neg, zpow_natCast, inv_mul_cancel₀ (by positivity)]

theorem sgn_sq (x : F64) : (x.sgn : ℚ) * (x.sgn : ℚ) = 1 := by
  rw [sgn_cast]; split_ifs <;> norm_num

theorem abs_sgn (x : F64) : |(x.sgn : ℚ)| = 1 := by
  rw [sgn_cast]; split_ifs <;> norm_num

theorem xor_sgn (x y : F64) :
    (if xor x.sign y.sign then (-1 : ℚ) else 1) = (x.sgn : ℚ) * (y.sgn : ℚ) := by
  rw [sgn_cast, sgn_cast]
  cases x.sign <;> cases y.sign <;> simp

/-- Division of two finite nonzero floats whose exact quotient is in the normal
range: the result is within half a unit in the last place of the quotient. -/
theorem div_approx (x y : F64) (a b : ℚ) (hx : x.toRat = some a) (hy : y.toRat = some b)
    (ha : a ≠ 0) (hb : b ≠ 0)
    (lo : (2 : ℚ) ^ (-1022 : Int) ≤ |a / b|) (hi : |a / b| < 2 ^ (1023 : Int)) :
    ∃ v : ℚ, (div x y).toRat = some v ∧ |v - a / b| ≤ |a / b| / 2 ^ 53 := by
  obtain ⟨fx, ea⟩ := toRat_some x a hx
  obtain ⟨fy, eb⟩ := toRat_some y b hy
  have mx := mant_ne_zero x a hx ha
  have my := mant_ne_zero y b hy hb
  have hdiv : div x y = roundRat (xor x.sign y.sign)
      (x.mant * 2 ^ (x.scale - y.scale).toNat) (y.mant * 2 ^ (-(x.scale - y.scale)).toNat) := by
    simp only [div]
    rw [if_neg (by omega), if_neg (by omega), if_neg (by omega), if_neg (by omega),
      if_neg my, if_neg mx]
  have two : (2 : ℚ) ≠ 0 := by norm_num
  have mxq : (0 : ℚ) < x.mant := by exact_mod_cast Nat.pos_of_ne_zero mx
  have myq : (0 : ℚ) < y.mant := by exact_mod_cast Nat.pos_of_ne_zero my
  have hn : 0 < x.mant * 2 ^ (x.scale - y.scale).toNat := by positivity
  have hd : 0 < y.mant * 2 ^ (-(x.scale - y.scale)).toNat := by positivity
  -- the ratio handed to the rounding is the magnitude of the quotient
  have hr : ((x.mant * 2 ^ (x.scale - y.scale).toNat : Nat) : ℚ)
      / ((y.mant * 2 ^ (-(x.scale - y.scale)).toNat : Nat) : ℚ) = |a / b| := by
    push_cast
    rw [pow_toNat_split (x.scale - y.scale), ea, eb, abs_div, abs_mul, abs_mul, abs_mul, abs_mul,
      abs_sgn, abs_sgn, one_mul, one_mul, abs_of_pos mxq, abs_of_pos myq,
      abs_of_pos (by positivity), abs_of_pos (by positivity), zpow_sub₀ two]
    field_simp
    ring
  have hden : (0 : ℚ) < ((y.mant * 2 ^ (-(x.scale - y.scale)).toNat : Nat) : ℚ) := by
    exact_mod_cast hd
  have lo2 : (2 : ℚ) ^ (-1022 : Int) * ((y.mant * 2 ^ (-(x.scale - y.scale)).toNat : Nat) : ℚ)
      ≤ ((x.mant * 2 ^ (x.scale - y.scale).toNat : Nat) : ℚ) := by
    rw [← hr, le_div_iff₀ hden] at lo
    exact lo
  have hi2 : ((x.mant * 2 ^ (x.scale - y.scale).toNat : Nat) : ℚ)
      < 2 ^ (1023 : Int) * ((y.mant * 2 ^ (-(x.scale - y.scale)).toNat : Nat) : ℚ) := by
    rw [← hr, div_lt_iff₀ hden] at hi
    exact hi
  obtain ⟨v, h1, -, h3⟩ := roundRat_approx (xor x.sign y.sign) _ _ hn hd lo2 hi2
  rw [hr] at h3
  refine ⟨_, by rw [hdiv]; exact h1, ?_⟩
  have hab : a / b = (x.sgn : ℚ) * (y.sgn : ℚ) * |a / b| := by
    have s1 := sgn_sq y
    have s0 : (y.sgn : ℚ) ≠ 0 := by
      intro h0; rw [h0] at s1; norm_num at s1
    have hA : (0 : ℚ) < x.mant * 2 ^ x.scale := by positivity
    have hB : (0 : ℚ) < y.mant * 2 ^ y.scale := by positivity
    rw [ea, eb, mul_assoc, mul_assoc]
    generalize (x.mant : ℚ) * 2 ^ x.scale = A at hA
    generalize (y.mant : ℚ) * 2 ^ y.scale = B at hB
    rw [abs_div, abs_mul, abs_mul, abs_sgn, abs_sgn, one_mul, one_mul, abs_of_pos hA,
      abs_of_pos hB]
    have hB0 : B ≠ 0 := ne_of_gt hB
    field_simp
    linear_combination (-((x.sgn : ℚ) * A * B)) * s1
  rw [xor_sgn]
  nth_rewrite 1 [hab]
  rw [← mul_sub, abs_mul, abs_mul, abs_sgn, abs_sgn, one_mul, one_mul]
  exact h3

theorem add_eq (x y : F64) (fx : x.expo < 2047) (fy : y.expo < 2047)
    (mx : x.mant ≠ 0) (my : y.mant ≠ 0) (s : Int) (hs : min x.scale y.scale = s) (t : Int)
    (ht : x.sgn * ((x.mant * 2 ^ (x.scale - s).toNat : Nat) : Int)
      + y.sgn * ((y.mant * 2 ^ (y.scale - s).toNat : Nat) : Int) = t) :
    add x y = if t = 0 then zero false
      else roundRat (decide (t < 0)) (t.natAbs * 2 ^ s.toNat) (2 ^ (-s).toNat) := by
  simp only [add]
  rw [if_neg (by omega), if_neg (by omega), if_neg (by omega), if_neg (by omega),
    if_neg my, if_neg mx, hs, ht]

/-- Addition of two finite nonzero floats whose exact sum is nonzero and in the
normal range: the result is within half a unit in the last place of the sum. -/
theorem add_approx (x y : F64) (a b : ℚ) (hx : x.toRat = some a) (hy : y.toRat = some b)
    (ha : a ≠ 0) (hb : b ≠ 0) (hab : a + b ≠ 0)
    (lo : (2 : ℚ) ^ (-1022 : Int) ≤ |a + b|) (hi : |a + b| < 2 ^ (1023 : Int)) :
    ∃ v : ℚ, (add x y).toRat = some v ∧ |v - (a + b)| ≤ |a + b| / 2 ^ 53 := by
  obtain ⟨fx, ea⟩ := toRat_some x a hx
  obtain ⟨fy, eb⟩ := toRat_some y b hy
  have mx := mant_ne_zero x a hx ha
  have my := mant_ne_zero y b hy hb
  have two : (2 : ℚ) ≠ 0 := by norm_num
  generalize hs : min x.scale y.scale = s
  have hsx : s ≤ x.scale := by rw [← hs]; exact min_le_left _ _
  have hsy : s ≤ y.scale := by rw [← hs]; exact min_le_right _ _
  generalize ht : x.sgn * ((x.mant * 2 ^ (x.scale - s).toNat : Nat) : Int)
      + y.sgn * ((y.mant * 2 ^ (y.scale - s).toNat : Nat) : Int) = t
  rw [add_eq x y fx fy mx my s hs t ht]
  -- the integer `t` is the exact sum in units of `2 ^ s`
  have hp : ∀ z : Int, s ≤ z → (2 : ℚ) ^ (z - s).toNat * 2 ^ s = 2 ^ z := by
    intro z hz
    have e : z - s = ((z - s).toNat : Int) := by omega
    rw [← zpow_natCast, ← e, ← zpow_add₀ two, sub_add_cancel]
  have hsum : (t : ℚ) * 2 ^ s = a + b := by
    rw [← ht, ea, eb]
    push_cast
    rw [add_mul, mul_assoc, mul_assoc, hp _ hsx, mul_assoc, mul_assoc, hp _ hsy]
    ring
  have s2 : (0 : ℚ) < 2 ^ s := by positivity
  have t0 : t ≠ 0 := by
    intro h0
    rw [h0] at hsum
    simp at hsum
    exact hab hsum.symm
  rw [if_neg t0]
  have hn : 0 < t.natAbs * 2 ^ s.toNat := by
    have : 0 < t.natAbs := Int.natAbs_pos.2 t0
    positivity
  have hd : 0 < 2 ^ (-s).toNat := by positivity
  have hr : ((t.natAbs * 2 ^ s.toNat : Nat) : ℚ) / ((2 ^ (-s).toNat : Nat) : ℚ) = |a + b| := by
    push_cast
    rw [pow_toNat_split s, ← hsum, abs_mul, abs_of_pos s2, Nat.cast_natAbs]
    push_cast
    field_simp
    ring
  have hden : (0 : ℚ) < ((2 ^ (-s).toNat : Nat) : ℚ) := by exact_mod_cast hd
  have lo2 : (2 : ℚ) ^ (-1022 : Int) * ((2 ^ (-s).toNat : Nat) : ℚ)
      ≤ ((t.natAbs * 2 ^ s.toNat : Nat) : ℚ) := by
    rw [← hr, le_div_iff₀ hden] at lo
    exact lo
  have hi2 : ((t.natAbs * 2 ^ s.toNat : Nat) : ℚ)
      < 2 ^ (1023 : Int) * ((2 ^ (-s).toNat : Nat) : ℚ) := by
    rw [← hr, div_lt_iff₀ hden] at hi
    exact hi
  obtain ⟨v, h1, -, h3⟩ := roundRat_approx (decide (t < 0)) _ _ hn hd lo2 hi2
  rw [hr] at h3
  refine ⟨_, h1, ?_⟩
  have hsg : a + b = (if decide (t < 0) = true then (-1 : ℚ) else 1) * |a + b| := by
    rw [← hsum, abs_mul, abs_of_pos s2]
    rcases lt_or_le t 0 with h | h
    · have hq : (t : ℚ) < 0 := by exact_mod_cast h
      rw [decide_eq_true h, if_pos rfl, abs_of_neg hq]; ring
    · have hq : (0 : ℚ) ≤ t := by exact_mod_cast h
      rw [decide_eq_false (not_lt.2 h), abs_of_nonneg hq]; simp
  have habs : |(if decide (t < 0) = true then (-1 : ℚ) else 1)| = 1 := by
    split_ifs <;> norm_num
  have key : (if decide (t < 0) = true then (-1 : ℚ) else 1) * v - (a + b)
      = (if decide (t < 0) = true then (-1 : ℚ) else 1) * (v - |a + b|) := by
    rw [mul_sub, ← hsg]
  rw [key, abs_mul, habs, one_mul]
  exact h3

theorem add_zero_right (x : F64) (fx : x.expo < 2047) (mx : x.mant ≠ 0) :
    add x (zero false) = x := by
  have e1 : (zero false).expo = 0 := rfl
  have e2 : (zero false).mant = 0 := rfl
  simp only [add]
  rw [if_neg (by omega), if_neg (by omega), if_neg (by omega), if_neg (by omega),
    if_pos e2, if_neg mx]

theorem add_zero_left (y : F64) (fy : y.expo < 2047) (my : y.mant ≠ 0) :
    add (zero false) y = y := by
  have e1 : (zero false).expo = 0 := rfl
  have e2 : (zero false).mant = 0 := rfl
  simp only [add]
  rw [if_neg (by omega), if_neg (by omega), if_neg (by omega), if_neg (by omega),
    if_neg my, if_pos e2]

end F64

/-! ## `Duration.Seconds` -/

theorem tdiv_tmod_facts (d : Int) :
    Int.tdiv d 1000000000 * 1000000000 + Int.tmod d 1000000000 = d
      ∧ (0 ≤ d → 0 ≤ Int.tdiv d 1000000000 ∧ 0 ≤ Int.tmod d 1000000000
          ∧ Int.tmod d 1000000000 < 1000000000)
      ∧ (d ≤ 0 → Int.tdiv d 1000000000 ≤ 0 ∧ Int.tmod d 1000000000 ≤ 0
          ∧ -1000000000 < Int.tmod d 1000000000) := by
  have h := Int.tdiv_add_tmod' d 1000000000
  refine ⟨h, ?_, ?_⟩
  · intro h0
    have e : Int.tdiv d 1000000000 = d / 1000000000 := Int.tdiv_eq_ediv h0 (by norm_num)
    rw [e] at h ⊢
    omega
  · intro h0
    have e : Int.tdiv (-d) 1000000000 = (-d) / 1000000000 :=
      Int.tdiv_eq_ediv (by omega) (by norm_num)
    rw [Int.neg_tdiv] at e
    omega

/-- The error of `float64(sec) + q` against `sec + n` when `q` is the rounded
fraction `n` and the sum is rounded once more. -/
theorem seconds_error (S n q v : ℚ) (hS : 1 ≤ S) (hn0 : 0 < n) (hn1 : n < 1)
    (hq : |q - n| ≤ n / 2 ^ 53) (hv : |v - (S + q)| ≤ |S + q| / 2 ^ 53) :
    |v - (S + n)| ≤ (S + n) / 2 ^ 52 := by
  have e52 : (S + n) / 2 ^ 52 = 2 * ((S + n) / 2 ^ 53) := by
    rw [show (2 : ℚ) ^ 53 = 2 ^ 52 * 2 by norm_num]; field_simp; ring
  rw [e52]
  have hε : (0 : ℚ) < 1 / 2 ^ 53 := by positivity
  have hε1 : (1 : ℚ) / 2 ^ 53 ≤ 1 := by
    rw [div_le_one (by positivity)]; norm_num
  rw [div_eq_mul_one_div] at hq hv ⊢
  generalize (1 : ℚ) / 2 ^ 53 = ε at *
  rw [abs_le] at hq
  have hSq : 0 < S + q := by nlinarith
  rw [abs_of_pos hSq] at hv
  rw [abs_le] at hv ⊢
  have h1 : n * ε ≤ n := by nlinarith
  have h2 : n * ε * ε ≤ S * ε := by nlinarith
  constructor <;> nlinarith

theorem seconds_error_neg (S n q v : ℚ) (hS : S ≤ -1) (hn0 : n < 0) (hn1 : -1 < n)
    (hq : |q - n| ≤ -n / 2 ^ 53) (hv : |v - (S + q)| ≤ |S + q| / 2 ^ 53) :
    |v - (S + n)| ≤ -(S + n) / 2 ^ 52 := by
  have a1 : |(-q) - (-n)| = |q - n| := by rw [← abs_neg]; congr 1; ring
  have a2 : |(-v) - (-S + -q)| = |v - (S + q)| := by rw [← abs_neg]; congr 1; ring
  have a3 : |(-S) + (-q)| = |S + q| := by rw [← abs_neg]; congr 1; ring
  have a4 : |(-v) - (-S + -n)| = |v - (S + n)| := by rw [← abs_neg]; congr 1; ring
  have := seconds_error (-S) (-n) (-q) (-v) (by linarith) (by linarith) (by linarith)
    (by rw [a1]; exact hq) (by rw [a2, a3]; exact hv)
  rw [a4] at this
  have e : -S + -n = -(S + n) := by ring
  rw [e] at this
  exact this

/-- `Duration.Seconds` of a duration in the range of `time.Duration`: the
float returned is finite, within relative error `2 ^ -52` of the duration in
seconds, and equal to it when the duration is a whole number of seconds. -/
theorem Seconds_spec (d : Int) (h1 : minDuration ≤ d) (h2 : d ≤ maxDuration) :
    ∃ v : ℚ, (Seconds d).toRat = some v
      ∧ |v - (d : ℚ) / 1000000000| ≤ |(d : ℚ) / 1000000000| / 2 ^ 52
      ∧ ((1000000000 : Int) ∣ d → v = (d : ℚ) / 1000000000) := by
  obtain ⟨hd, hpos, hneg⟩ := tdiv_tmod_facts d
  simp only [minDuration, maxDuration] at h1 h2
  simp only [Seconds]
  generalize Int.tdiv d 1000000000 = sec at *
  generalize Int.tmod d 1000000000 = nsec at *
  have hsb : sec.natAbs ≤ 2 ^ 53 := by
    rcases le_total 0 d with h | h
    · have := hpos h; omega
    · have := hneg h; omega
  have hnb : nsec.natAbs ≤ 2 ^ 53 := by
    rcases le_total 0 d with h | h
    · have := hpos h; omega
    · have := hneg h; omega
  have hsR := F64.ofInt_toRat sec hsb
  have hnR := F64.ofInt_toRat nsec hnb
  have hbR : (F64.ofInt 1000000000).toRat = some (1000000000 : ℚ) := by
    have := F64.ofInt_toRat 1000000000 (by norm_num)
    simpa using this
  have hdq : (d : ℚ) / 1000000000 = sec + (nsec : ℚ) / 1000000000 := by
    rw [← hd]; push_cast; field_simp
  have two : (1 : ℚ) ≤ 2 := by norm_num
  have lo0 : (2 : ℚ) ^ (-1022 : Int) ≤ 2 ^ (-30 : Int) :=
    zpow_le_zpow_right₀ two (by norm_num)
  have lo1 : (2 : ℚ) ^ (-30 : Int) ≤ 1 / 1000000000 := by
    rw [zpow_neg]; norm_num
  have lo2 : (2 : ℚ) ^ (-1022 : Int) ≤ 1 := by
    have := zpow_le_zpow_right₀ two (show (-1022 : Int) ≤ 0 by norm_num)
    simpa using this
  have hi0 : (2 : ℚ) ^ (35 : Int) ≤ 2 ^ (1023 : Int) :=
    zpow_le_zpow_right₀ two (by norm_num)
  have hi1 : (2 : ℚ) ^ (35 : Int) = 34359738368 := by norm_num
  by_cases hn0 : nsec = 0
  · subst hn0
    have hq : F64.div (F64.ofInt 0) (F64.ofInt 1000000000) = F64.zero false := by decide
    rw [hq]
    have hr : (d : ℚ) / 1000000000 = sec := by rw [hdq]; simp
    by_cases hs0 : sec = 0
    · subst hs0
      have hz : F64.add (F64.ofInt 0) (F64.zero false) = F64.zero false := by decide
      rw [hz, F64.zero_toRat]
      refine ⟨0, rfl, ?_, fun _ => ?_⟩
      · rw [hr]; simp
      · rw [hr]; simp
    · have hs0q : (sec : ℚ) ≠ 0 := by exact_mod_cast hs0
      obtain ⟨fx, -⟩ := F64.toRat_some _ _ hsR
      rw [F64.add_zero_right _ fx (F64.mant_ne_zero _ _ hsR hs0q), hsR]
      refine ⟨sec, rfl, ?_, fun _ => hr.symm⟩
      rw [hr, sub_self, abs_zero]
      positivity
  · have hn0q : (nsec : ℚ) ≠ 0 := by exact_mod_cast hn0
    have hndvd : ¬ (1000000000 : Int) ∣ d := by
      intro hdv
      rcases le_total 0 d with h | h
      · have := hpos h; omega
      · have := hneg h; omega
    have nb : |(nsec : ℚ)| < 1000000000 ∧ 1 ≤ |(nsec : ℚ)| := by
      have : |nsec| < 1000000000 ∧ 1 ≤ |nsec| := by
        rcases le_total 0 d with h | h
        · have := hpos h; rw [abs_of_nonneg (by omega)]; omega
        · have := hneg h; rw [abs_of_nonpos (by omega)]; omega
      exact_mod_cast this
    have nabs : |(nsec : ℚ) / 1000000000| = |(nsec : ℚ)| / 1000000000 := by
      rw [abs_div, abs_of_pos (by norm_num : (0 : ℚ) < 1000000000)]
    have nlo : (2 : ℚ) ^ (-1022 : Int) ≤ |(nsec : ℚ) / 1000000000| := by
      rw [nabs]
      have : (1 : ℚ) / 1000000000 ≤ |(nsec : ℚ)| / 1000000000 :=
        div_le_div_of_nonneg_right nb.2 (by norm_num)
      linarith
    have nhi1 : |(nsec : ℚ) / 1000000000| < 1 := by
      rw [nabs, div_lt_one (by norm_num)]; exact nb.1
    have nhi : |(nsec : ℚ) / 1000000000| < 2 ^ (1023 : Int) := by
      have : (1 : ℚ) ≤ 2 ^ (35 : Int) := by rw [hi1]; norm_num
      linarith
    obtain ⟨q, hqR, hqe⟩ := F64.div_approx _ _ _ _ hnR hbR hn0q (by norm_num) nlo nhi
    have npos : 0 < |(nsec : ℚ) / 1000000000| := lt_of_lt_of_le (by positivity) nlo
    have hq0 : q ≠ 0 := by
      intro h0
      rw [h0, zero_sub, abs_neg] at hqe
      have : |(nsec : ℚ) / 1000000000| / 2 ^ 53 < |(nsec : ℚ) / 1000000000| := by
        rw [div_lt_iff₀ (by positivity)]
        nlinarith
      linarith
    obtain ⟨fq, -⟩ := F64.toRat_some _ _ hqR
    have mq := F64.mant_ne_zero _ _ hqR hq0
    by_cases hs0 : sec = 0
    · subst hs0
      have hz : F64.ofInt 0 = F64.zero false := by decide
      rw [hz, F64.add_zero_left _ fq mq, hqR]
      have hr : (d : ℚ) / 1000000000 = (nsec : ℚ) / 1000000000 := by rw [hdq]; simp
      refine ⟨q, rfl, ?_, fun h => absurd h hndvd⟩
      rw [hr]
      apply le_trans hqe
      apply div_le_div_of_nonneg_left (le_of_lt npos) (by positivity)
      norm_num
    · have hs0q : (sec : ℚ) ≠ 0 := by exact_mod_cast hs0
      rcases le_total 0 d with h | h
      · obtain ⟨p1, p2, p3⟩ := hpos h
        have hS : (1 : ℚ) ≤ sec := by
          have : 1 ≤ sec := by omega
          exact_mod_cast this
        have hSb : (sec : ℚ) ≤ 9223372036 := by
          have : sec ≤ 9223372036 := by omega
          exact_mod_cast this
        have hnp : (0 : ℚ) < (nsec : ℚ) / 1000000000 := by
          have : (0 : ℚ) < nsec := by
            have : 0 < nsec := by omega
            exact_mod_cast this
          positivity
        rw [abs_of_pos hnp] at hqe nhi1
        have hqb := abs_le.1 hqe
        have hε : (nsec : ℚ) / 1000000000 / 2 ^ 53 ≤ (nsec : ℚ) / 1000000000 := by
          apply div_le_self (le_of_lt hnp); norm_num
        have hsq : 0 < (sec : ℚ) + q := by linarith
        obtain ⟨v, hvR, hve⟩ := F64.add_approx _ _ _ _ hsR hqR hs0q hq0 (ne_of_gt hsq)
          (by rw [abs_of_pos hsq]; linarith) (by rw [abs_of_pos hsq]; linarith)
        refine ⟨v, hvR, ?_, fun h => absurd h hndvd⟩
        rw [hdq]
        have hrp : 0 < (sec : ℚ) + (nsec : ℚ) / 1000000000 := by linarith
        rw [abs_of_pos hrp]
        exact seconds_error _ _ q v hS hnp nhi1 hqe hve
      · obtain ⟨p1, p2, p3⟩ := hneg h
        have hS : (sec : ℚ) ≤ -1 := by
          have : sec ≤ -1 := by omega
          exact_mod_cast this
        have hSb : (-9223372036 : ℚ) ≤ sec := by
          have : -9223372036 ≤ sec := by omega
          exact_mod_cast this
        have hnp : (nsec : ℚ) / 1000000000 < 0 := by
          have : (nsec : ℚ) < 0 := by
            have : nsec < 0 := by omega
            exact_mod_cast this
          exact div_neg_of_neg_of_pos this (by norm_num)
        rw [abs_of_neg hnp] at hqe nhi1
        have hqb := abs_le.1 hqe
        have hε : -((nsec : ℚ) / 1000000000) / 2 ^ 53 ≤ -((nsec : ℚ) / 1000000000) := by
          apply div_le_self (by linarith); norm_num
        have hsq : (sec : ℚ) + q < 0 := by linarith
        obtain ⟨v, hvR, hve⟩ := F64.add_approx _ _ _ _ hsR hqR hs0q hq0 (ne_of_lt hsq)
          (by rw [abs_of_neg hsq]; linarith) (by rw [abs_of_neg hsq]; linarith)
        refine ⟨v, hvR, ?_, fun h => absurd h hndvd⟩
        rw [hdq]
        have hrp : (sec : ℚ) + (nsec : ℚ) / 1000000000 < 0 := by linarith
        rw [abs_of_neg hrp]
        exact seconds_error_neg _ _ q v hS hnp (by linarith) hqe hve


/-! ## The claims on the sample values -/

theorem collect_status_prefix (w : World) (s : State) (c1 : Nat) (sdoc : Option JSON)
    (nodeId chainId : String) (height : F64) (time : Int)
    (hs : w.get (s.exporter.gaiadEndpoint ++ statusApi) = .body c1 sdoc)
    (hw : WellFormedStatus sdoc nodeId chainId height time) :
    ∃ rest : List Metric, (Collect w s).1.metricCh = s.metricCh ++
      heightSample nodeId chainId height
        :: timeDiffSample nodeId chainId (Seconds (Sub w.now time)) :: rest := by
  rw [collect_eq, hs]
  simp only [statusOf_wellFormed hw, network_eq, State.send, State.requested]
  cases w.get (s.exporter.gaiadEndpoint ++ networkApi) with
  | newRequestErr => exact ⟨[], by simp⟩
  | doErr => exact ⟨[], by simp⟩
  | readErr c => exact ⟨[], by simp⟩
  | body c2 ndoc =>
    simp only
    cases networkOf (stringAt ndoc pathPeers) with
    | error o => exact ⟨[], by simp⟩
    | ok v => exact ⟨[peersSample nodeId chainId v], by simp⟩

/-- C3. For a well-formed status document whose `latest_block_height` is the
decimal encoding of an integer `0 ≤ h ≤ 2 ^ 53`, the first sample of the scrape
is the `latest_block_height` sample, of kind Counter, and its value is the
float `float64(h)`, which denotes exactly `h`. -/
theorem height_sample_is_exact (w : World) (s : State) (c1 : Nat) (sdoc : Option JSON)
    (nodeId chainId : String) (height : F64) (time : Int) (h : Nat)
    (hs : w.get (s.exporter.gaiadEndpoint ++ statusApi) = .body c1 sdoc)
    (hw : WellFormedStatus sdoc nodeId chainId height time)
    (henc : stringAt sdoc pathHeight = some (Nat.repr h))
    (hh : h ≤ 2 ^ 53) :
    ∃ (m : Metric) (rest : List Metric),
      (Collect w s).1.metricCh = s.metricCh ++ m :: rest
      ∧ m.desc = latestBlockHeight
      ∧ m.valueType = .CounterValue
      ∧ m.value = F64.ofInt h
      ∧ m.value.toRat = some (h : ℚ) := by
  obtain ⟨rest, hr⟩ := collect_status_prefix w s c1 sdoc nodeId chainId height time hs hw
  obtain ⟨hstr, h1, h2⟩ := hw.height
  rw [henc] at h1
  cases h1
  rw [ParseFloat_repr h hh] at h2
  cases h2
  refine ⟨_, _, hr, rfl, rfl, rfl, ?_⟩
  have := F64.ofInt_toRat (h : Int) (by simpa using hh)
  simpa [heightSample] using this

theorem scenario1234_status_wellFormed :
    WellFormedStatus (some (statusDoc "1234" "2024-01-01T00:00:00Z"))
      "abc123" "testnet-1" (F64.ofInt 1234) 1704067200000000000 :=
  ⟨by decide, by decide, ⟨"1234", by decide, by decide⟩,
    ⟨"2024-01-01T00:00:00Z", by decide, by decide⟩⟩

/-- Witness of C3: the heights `"1234"` and `"500"` give the Counter samples
with the values `1234` and `500`. -/
theorem height_sample_is_exact_witness :
    (∃ (m : Metric) (rest : List Metric),
      (Collect scenario1234 freshState).1.metricCh = freshState.metricCh ++ m :: rest
      ∧ m.desc = latestBlockHeight
      ∧ m.valueType = .CounterValue
      ∧ m.value = F64.ofInt (1234 : Nat)
      ∧ m.value.toRat = some ((1234 : Nat) : ℚ))
    ∧ (∃ (m : Metric) (rest : List Metric),
      (Collect scenario freshState).1.metricCh = freshState.metricCh ++ m :: rest
      ∧ m.desc = latestBlockHeight
      ∧ m.valueType = .CounterValue
      ∧ m.value = F64.ofInt (500 : Nat)
      ∧ m.value.toRat = some ((500 : Nat) : ℚ)) :=
  ⟨height_sample_is_exact scenario1234 freshState 200 _ _ _ _ _ 1234 rfl
      scenario1234_status_wellFormed (by decide) (by norm_num),
    height_sample_is_exact scenario freshState 200 _ _ _ _ _ 500 rfl
      scenario_status_wellFormed (by decide) (by norm_num)⟩

/-- C4. For a well-formed status document and a network document whose
`result.n_peers` is the decimal encoding of an integer `0 ≤ p ≤ 2 ^ 53`, the
scrape returns and its third sample is the `number_of_peers` sample, of kind
Gauge, with the value `float64(p)`, which denotes exactly `p`. -/
theorem peers_sample_is_exact (w : World) (s : State) (c1 c2 : Nat)
    (sdoc ndoc : Option JSON) (nodeId chainId : String) (height : F64) (time : Int)
    (p : Nat)
    (hs : w.get (s.exporter.gaiadEndpoint ++ statusApi) = .body c1 sdoc)
    (hn : w.get (s.exporter.gaiadEndpoint ++ networkApi) = .body c2 ndoc)
    (hw : WellFormedStatus sdoc nodeId chainId height time)
    (henc : stringAt ndoc pathPeers = some (Nat.repr p))
    (hp : p ≤ 2 ^ 53) :
    ∃ m1 m2 m3 : Metric,
      (Collect w s).2 = .returned
      ∧ (Collect w s).1.metricCh = s.metricCh ++ [m1, m2, m3]
      ∧ m3.desc = peersNumber
      ∧ m3.valueType = .GaugeValue
      ∧ m3.value = F64.ofInt p
      ∧ m3.value.toRat = some (p : ℚ) := by
  have hwn : WellFormedNetwork ndoc (F64.ofInt p) := ⟨_, henc, ParseFloat_repr p hp⟩
  obtain ⟨h1, h2⟩ := collect_bodies w s c1 c2 sdoc ndoc hs hn
  rw [statusOf_wellFormed hw, networkOf_wellFormed hwn] at h1 h2
  refine ⟨_, _, _, h2, h1, rfl, rfl, rfl, ?_⟩
  have := F64.ofInt_toRat (p : Int) (by simpa using hp)
  simpa [peersSample] using this

/-- Witness of C4: the peer counts `"7"` and `"3"` give the Gauge samples with
the values `7` and `3`. -/
theorem peers_sample_is_exact_witness :
    (∃ m1 m2 m3 : Metric,
      (Collect scenario1234 freshState).2 = .returned
      ∧ (Collect scenario1234 freshState).1.metricCh = freshState.metricCh ++ [m1, m2, m3]
      ∧ m3.desc = peersNumber
      ∧ m3.valueType = .GaugeValue
      ∧ m3.value = F64.ofInt (7 : Nat)
      ∧ m3.value.toRat = some ((7 : Nat) : ℚ))
    ∧ (∃ m1 m2 m3 : Metric,
      (Collect scenario freshState).2 = .returned
      ∧ (Collect scenario freshState).1.metricCh = freshState.metricCh ++ [m1, m2, m3]
      ∧ m3.desc = peersNumber
      ∧ m3.valueType = .GaugeValue
      ∧ m3.value = F64.ofInt (3 : Nat)
      ∧ m3.value.toRat = some ((3 : Nat) : ℚ)) :=
  ⟨peers_sample_is_exact scenario1234 freshState 200 200 _ _ _ _ _ _ 7 rfl rfl
      scenario1234_status_wellFormed (by decide) (by norm_num),
    peers_sample_is_exact scenario freshState 200 200 _ _ _ _ _ _ 3 rfl rfl
      scenario_status_wellFormed (by decide) (by norm_num)⟩

set_option maxRecDepth 100000

theorem scenarioZeroTime_status_wellFormed :
    WellFormedStatus (some (statusDoc "0" "0001-01-01T00:00:00Z"))
      "abc123" "testnet-1" (F64.ofInt 0) (-62135596800000000000) :=
  ⟨by decide, by decide, ⟨"0", by decide, by decide⟩,
    ⟨"0001-01-01T00:00:00Z", by decide, by decide⟩⟩

theorem scenarioClockSkew_status_wellFormed :
    WellFormedStatus (some (statusDoc "500" "2024-01-01T00:03:20Z"))
      "abc123" "testnet-1" (F64.ofInt 500) 1704067400000000000 :=
  ⟨by decide, by decide, ⟨"500", by decide, by decide⟩,
    ⟨"2024-01-01T00:03:20Z", by decide, by decide⟩⟩

theorem seconds_maxDuration : Seconds maxDuration = ⟨false, 1056, 332103651088021⟩ := by
  decide

/-- C2 fails as stated: a node that has no block yet reports the zero time
`0001-01-01T00:00:00Z` as `latest_block_time`, which is a well-formed RFC3339
instant `63839664100` seconds before the scrape at `2024-01-01T00:01:40Z`; the
`latest_block_time_diff` sample nevertheless carries the float
`4835703278458517 / 2 ^ 19`, about `9223372036.85`, the largest `Duration` in
seconds, because `Time.Sub` saturates. -/
theorem time_diff_saturates_at_zero_time :
    WellFormedStatus (some (statusDoc "0" "0001-01-01T00:00:00Z"))
        "abc123" "testnet-1" (F64.ofInt 0) (-62135596800000000000)
      ∧ parseRFC3339 "0001-01-01T00:00:00Z" = some (-62135596800000000000)
      ∧ scenarioZeroTime.now - (-62135596800000000000) = 63839664100 * 1000000000
      ∧ (Collect scenarioZeroTime freshState).2 = .returned
      ∧ (Collect scenarioZeroTime freshState).1.metricCh
        = [heightSample "abc123" "testnet-1" (F64.ofInt 0),
           timeDiffSample "abc123" "testnet-1" ⟨false, 1056, 332103651088021⟩,
           peersSample "abc123" "testnet-1" (F64.ofInt 3)]
      ∧ F64.toRat ⟨false, 1056, 332103651088021⟩ = some (4835703278458517 / 524288)
      ∧ (4835703278458517 / 524288 : ℚ) < 9223372037
      ∧ (9223372037 : ℚ) < 63839664100 := by
  refine ⟨scenarioZeroTime_status_wellFormed, by decide, by decide, by decide, by decide,
    ?_, by norm_num, by norm_num⟩
  norm_num [F64.toRat, F64.sgn, F64.mant, F64.scale]

/-- C2, amended. For a well-formed status document whose `latest_block_time`
parses to the instant `t`, the second sample of the scrape is the
`latest_block_time_diff` sample, of kind Gauge, with the value
`Seconds (Sub now t)`.  When `now - t` fits a `time.Duration` (about 292
years either way) that value is finite, within relative error `2 ^ -52` of
`now - t` in seconds, equal to it when `now - t` is a whole number of seconds,
and negative when `t` is later than `now`.  When `now - t` does not fit, the
value is that of the largest, respectively smallest, `Duration`. -/
theorem time_diff_sample_value (w : World) (s : State) (c1 : Nat) (sdoc : Option JSON)
    (nodeId chainId : String) (height : F64) (time : Int)
    (hs : w.get (s.exporter.gaiadEndpoint ++ statusApi) = .body c1 sdoc)
    (hw : WellFormedStatus sdoc nodeId chainId height time) :
    ∃ (m1 m2 : Metric) (rest : List Metric),
      (Collect w s).1.metricCh = s.metricCh ++ m1 :: m2 :: rest
      ∧ m2.desc = latestBlockTimeDiff
      ∧ m2.valueType = .GaugeValue
      ∧ m2.value = Seconds (Sub w.now time)
      ∧ (minDuration ≤ w.now - time → w.now - time ≤ maxDuration →
          ∃ v : ℚ, m2.value.toRat = some v
            ∧ |v - ((w.now - time : Int) : ℚ) / 1000000000|
                ≤ |((w.now - time : Int) : ℚ) / 1000000000| / 2 ^ 52
            ∧ ((1000000000 : Int) ∣ w.now - time →
                v = ((w.now - time : Int) : ℚ) / 1000000000)
            ∧ (w.now < time → v < 0))
      ∧ (maxDuration < w.now - time → m2.value = Seconds maxDuration)
      ∧ (w.now - time < minDuration → m2.value = Seconds minDuration) := by
  obtain ⟨rest, hr⟩ := collect_status_prefix w s c1 sdoc nodeId chainId height time hs hw
  refine ⟨_, _, rest, hr, rfl, rfl, rfl, ?_, ?_, ?_⟩
  · intro h1 h2
    have hsub : Sub w.now time = w.now - time := by
      simp only [Sub]
      rw [if_neg (not_lt.2 h2), if_neg (not_lt.2 h1)]
    obtain ⟨v, e1, e2, e3⟩ := Seconds_spec (w.now - time) h1 h2
    refine ⟨v, ?_, e2, e3, ?_⟩
    · simp only [timeDiffSample, hsub]
      exact e1
    · intro hlt
      have hneg : (((w.now - time : Int) : ℚ)) / 1000000000 < 0 := by
        have : ((w.now - time : Int) : ℚ) < 0 := by
          have : w.now - time < 0 := by omega
          exact_mod_cast this
        exact div_neg_of_neg_of_pos this (by norm_num)
      rw [abs_of_neg hneg] at e2
      have hb := (abs_le.1 e2).2
      have hε : -(((w.now - time : Int) : ℚ) / 1000000000) / 2 ^ 52
          < -(((w.now - time : Int) : ℚ) / 1000000000) := by
        apply div_lt_self (by linarith); norm_num
      linarith
  · intro h
    simp only [timeDiffSample, Sub]
    rw [if_pos h]
  · intro h
    have h2 : ¬ maxDuration < w.now - time := by
      simp only [minDuration, maxDuration] at h ⊢
      omega
    simp only [timeDiffSample, Sub]
    rw [if_neg h2, if_pos h]

/-- Witness of C2 amended: the block time `2024-01-01T00:00:00Z` scraped at
`2024-01-01T00:01:40Z` gives `100.0`, and the block time
`2024-01-01T00:03:20Z` scraped at the same instant gives `-100.0`. -/
theorem time_diff_sample_value_witness :
    (∃ (m1 m2 : Metric) (rest : List Metric),
      (Collect scenario freshState).1.metricCh = freshState.metricCh ++ m1 :: m2 :: rest
      ∧ m2.desc = latestBlockTimeDiff
      ∧ m2.valueType = .GaugeValue
      ∧ m2.value = Seconds (Sub scenario.now 1704067200000000000)
      ∧ (minDuration ≤ scenario.now - 1704067200000000000 →
          scenario.now - 1704067200000000000 ≤ maxDuration →
          ∃ v : ℚ, m2.value.toRat = some v
            ∧ |v - ((scenario.now - 1704067200000000000 : Int) : ℚ) / 1000000000|
                ≤ |((scenario.now - 1704067200000000000 : Int) : ℚ) / 1000000000| / 2 ^ 52
            ∧ ((1000000000 : Int) ∣ scenario.now - 1704067200000000000 →
                v = ((scenario.now - 1704067200000000000 : Int) : ℚ) / 1000000000)
            ∧ (scenario.now < 1704067200000000000 → v < 0))
      ∧ (maxDuration < scenario.now - 1704067200000000000 → m2.value = Seconds maxDuration)
      ∧ (scenario.now - 1704067200000000000 < minDuration
          → m2.value = Seconds minDuration))
    ∧ Seconds (Sub scenario.now 1704067200000000000) = F64.ofInt 100
    ∧ (F64.ofInt 100).toRat = some 100
    ∧ (∃ (m1 m2 : Metric) (rest : List Metric),
      (Collect scenarioClockSkew freshState).1.metricCh
        = freshState.metricCh ++ m1 :: m2 :: rest
      ∧ m2.desc = latestBlockTimeDiff
      ∧ m2.valueType = .GaugeValue
      ∧ m2.value = Seconds (Sub scenarioClockSkew.now 1704067400000000000)
      ∧ (minDuration ≤ scenarioClockSkew.now - 1704067400000000000 →
          scenarioClockSkew.now - 1704067400000000000 ≤ maxDuration →
          ∃ v : ℚ, m2.value.toRat = some v
            ∧ |v - ((scenarioClockSkew.now - 1704067400000000000 : Int) : ℚ) / 1000000000|
                ≤ |((scenarioClockSkew.now - 1704067400000000000 : Int) : ℚ) / 1000000000|
                  / 2 ^ 52
            ∧ ((1000000000 : Int) ∣ scenarioClockSkew.now - 1704067400000000000 →
                v = ((scenarioClockSkew.now - 1704067400000000000 : Int) : ℚ) / 1000000000)
            ∧ (scenarioClockSkew.now < 1704067400000000000 → v < 0))
      ∧ (maxDuration < scenarioClockSkew.now - 1704067400000000000
          → m2.value = Seconds maxDuration)
      ∧ (scenarioClockSkew.now - 1704067400000000000 < minDuration
          → m2.value = Seconds minDuration))
    ∧ scenarioClockSkew.now < 1704067400000000000
    ∧ Seconds (Sub scenarioClockSkew.now 1704067400000000000) = F64.ofInt (-100)
    ∧ (F64.ofInt (-100)).toRat = some (-100) :=
  ⟨time_diff_sample_value scenario freshState 200 _ _ _ _ _ rfl scenario_status_wellFormed,
    by decide,
    by simpa using F64.ofInt_toRat 100 (by norm_num),
    time_diff_sample_value scenarioClockSkew freshState 200 _ _ _ _ _ rfl
      scenarioClockSkew_status_wellFormed,
    by decide,
    by decide,
    by simpa using F64.ofInt_toRat (-100) (by norm_num)⟩

end GaiadExporter
